import Mathlib

/-!
# pgterm: a shallow embedding of the browsing core

The development follows the Go sources:

* `internal/postgres/postgres.go` : `formatUUID`, `GetColumns`, `GetRows`
* `internal/termui/termui.go`     : `content` (three-part page key)
* `experimental/v2/main.go`       : `content`, `loadRows`, the key handler

Go strings are Lean `String`s, Go `int`/`int64` are `Int` (no arithmetic here can
overflow: only decimal printing and `GetRowCount() - 1`), Go slices are lists with
`nil` being `[]`, and a Go `error` is `Option String` (`none` is `nil`).
Calls that cross into the database driver are recorded in an explicit log carried by
the connection value.
-/

set_option autoImplicit false

namespace Pgterm

/-! ## Go standard library pieces used by the sources -/

/-- A Go `byte` / `uint8`. -/
abbrev Byte := Fin 256

/-- Go `strconv.Itoa` (also `%d` of `fmt`): decimal digits with a leading minus sign. -/
def Itoa (i : Int) : String := Int.repr i

/-- Go string slicing `s[i:j]`; every string sliced in the sources is ASCII, where byte
offsets and character offsets coincide. -/
def slice (s : String) (i j : Nat) : String :=
  String.mk ((s.toList.drop i).take (j - i))

/-- Go `strings.Join`. -/
def Join : List String → String → String
  | [], _ => ""
  | [a], _ => a
  | a :: b :: rest, sep => a ++ sep ++ Join (b :: rest) sep

namespace Hex

/-- The digit table of `encoding/hex`. -/
def hextable : String := "0123456789abcdef"

/-- Table lookup `hextable[i]`. -/
def digit (i : Nat) : Char := hextable.toList.getD i '?'

/-- Go `hex.EncodeToString`: two table lookups per byte, `v >> 4` then `v & 0x0f`. -/
def EncodeToString (src : List Byte) : String :=
  String.mk (src.flatMap fun v => [digit (v.val >>> 4), digit (v.val &&& 0x0f)])

end Hex

/-! ## The database driver (pgx), seen through the calls the sources make -/

/-- A Go `error`: `none` is `nil`, `some msg` an error whose text is `msg`. -/
abbrev Error := Option String

/-- A Go `float64` reaching the sources from the driver, kept together with the two
renderings the sources ask the standard library for. -/
structure Float64 where
  /-- The IEEE-754 bit pattern -/
  bits : Nat
  /-- The text of `strconv.FormatFloat(v, 'f', 2, 64)` -/
  fixed2 : String
  /-- The text of `fmt.Sprint(v)` -/
  sprint : String
deriving DecidableEq, Repr

/-- A Go `time.Time` reaching the sources from the driver, kept together with the two
renderings the sources ask the standard library for. -/
structure Time where
  /-- Nanoseconds since the Unix epoch -/
  unixNano : Int
  /-- The text of `Format("2006-01-02")` -/
  date : String
  /-- The text of `fmt.Sprint(v)` -/
  sprint : String
deriving DecidableEq, Repr

/-- A Go `[16]byte` array. -/
abbrev Bytes16 := { b : List Byte // b.length = 16 }

/-- A decoded column value, a Go `interface{}`: the dynamic types the two type switches
of the sources name, plus every other dynamic type, which is kept as its
`reflect.TypeOf(v).String()` and its `fmt.Sprint(v)`. -/
inductive Value where
  | int64 (v : Int)
  | float64 (v : Float64)
  | string (s : String)
  | time (t : Time)
  | bytes (b : List Byte)
  | uuid (b : Bytes16)
  | null
  | other (typeName : String) (sprint : String)
deriving DecidableEq, Repr

/-- An argument bound to a `$n` placeholder of a query. -/
inductive Arg where
  | int (i : Int)
  | str (s : String)
deriving DecidableEq, Repr

/-- One call into the driver: the SQL text and the bound arguments, in order. -/
structure QueryCall where
  sql : String
  args : List Arg
deriving DecidableEq, Repr

namespace Pgtype

/-- Go `pgtype.Int8`. -/
structure Int8 where
  Int64 : Int
  Valid : Bool
deriving DecidableEq, Repr

/-- Go `pgtype.Text`. -/
structure Text where
  String : String
  Valid : Bool
deriving DecidableEq, Repr

end Pgtype

/-- What `rows.Scan` stores into the eight destinations of `GetColumns`, in the order
of the select list. -/
structure ColumnScan where
  Name : String
  IsNullable : String
  DataType : String
  size : Pgtype.Int8
  numericPrecision : Pgtype.Int8
  numericScale : Pgtype.Int8
  OrdinalPosition : Int
  ConstraintType : Pgtype.Text
deriving DecidableEq, Repr

/-- One row handed out by `rows.Next()`, seen through the two ways the sources read it. -/
structure Row where
  /-- Outcome of `rows.Values()`; reading into `*interface{}` destinations with
  `rows.Scan` decodes the same values -/
  Values : Except String (List Value)
  /-- Outcome of `rows.Scan` into the eight destinations of `GetColumns` -/
  ScanColumn : Except String ColumnScan

/-- A `pgx.Rows`: the field names, the rows that successive `Next()` calls hand out, and
the value of `Err()` once `Next()` has returned false. -/
structure Rows where
  FieldDescriptions : List String
  next : List Row
  Err : Error

/-- A connection: the database behind it, as the answer it gives to each call, and the
log of the calls sent to it so far, oldest first. -/
structure Conn where
  name : String
  /-- Answer to `Query` -/
  answer : QueryCall → Except String Rows
  /-- Answer to `QueryRow(...).Scan(&n)` with `n` an `int` -/
  answerInt : QueryCall → Except String Int
  log : List QueryCall

/-- Go `conn.Query(ctx, sql, args...)`. -/
def Conn.Query (c : Conn) (q : QueryCall) : Conn × Except String Rows :=
  ({ c with log := c.log ++ [q] }, c.answer q)

/-- Go `conn.QueryRow(ctx, sql, args...).Scan(&n)`. -/
def Conn.QueryRowScanInt (c : Conn) (q : QueryCall) : Conn × Except String Int :=
  ({ c with log := c.log ++ [q] }, c.answerInt q)

/-- Go `fmt.Sprint(v)` of one value. -/
def Sprint : Value → String
  | .int64 v => Itoa v
  | .float64 v => v.sprint
  | .string s => s
  | .time t => t.sprint
  | .bytes b => "[" ++ Join (b.map fun x => Itoa x.val) " " ++ "]"
  | .uuid b => "[" ++ Join (b.val.map fun x => Itoa x.val) " " ++ "]"
  | .null => "<nil>"
  | .other _ s => s

/-- A Go `map[string]string`, as the list of its entries. -/
abbrev StringMap := List (String × String)

/-- Go `m[k] = v`. -/
def StringMap.set : StringMap → String → String → StringMap
  | [], k, v => [(k, v)]
  | (k', v') :: m, k, v => if k' = k then (k, v) :: m else (k', v') :: StringMap.set m k v

/-- Go `m[k]`, `none` when the key is absent. -/
def StringMap.get (m : StringMap) (k : String) : Option String := m.lookup k

namespace Postgres

/-- Source: `formatUUID` in `internal/postgres/postgres.go`. -/
def formatUUID (uuidBytes : Bytes16) : String :=
  let hexStr := Hex.EncodeToString uuidBytes.val
  if hexStr.length ≠ 32 then
    hexStr
  else
    Join [slice hexStr 0 8, slice hexStr 8 12, slice hexStr 12 16,
          slice hexStr 16 20, slice hexStr 20 32] "-"

/-- Source: `type Column struct` in `internal/postgres/postgres.go`. -/
structure Column where
  Name : String
  IsNullable : String
  DataType : String
  SizeText : String
  ConstraintType : Pgtype.Text
  OrdinalPosition : Int
deriving DecidableEq, Repr

/-- The catalog query text of `GetColumns`. -/
def columnsQuery : String :=
  "\n\tSELECT c.column_name,\n\t\tc.is_nullable,\n\t\tc.data_type,\n\t\tc.character_maximum_length,\n\t\tc.numeric_precision,\n\t\tc.numeric_scale,\n\t\tc.ordinal_position,\n\t\ttc.constraint_type pkey\n\tFROM   information_schema.columns c\n\t\tLEFT JOIN information_schema.constraint_column_usage AS ccu\n\t\t\t\tON c.table_schema = ccu.table_schema\n\t\t\t\t\tAND c.table_name = ccu.table_name\n\t\t\t\t\tAND c.column_name = ccu.column_name\n\t\tLEFT JOIN information_schema.table_constraints AS tc\n\t\t\t\tON ccu.constraint_schema = tc.constraint_schema\n\t\t\t\t\tAND ccu.constraint_name = tc.constraint_name\n\tWHERE  c.table_schema = $1\n\t\tAND c.table_name = $2"

/-- The body of the scan loop of `GetColumns` after a successful `rows.Scan`: the
column starts as the scanned fields with an empty `SizeText`, which the `if` chain on
`size`, `numericPrecision` and `numericScale` then fills. -/
def columnOfScan (r : ColumnScan) : Column :=
  let column : Column :=
    { Name := r.Name, IsNullable := r.IsNullable, DataType := r.DataType, SizeText := "",
      ConstraintType := r.ConstraintType, OrdinalPosition := r.OrdinalPosition }
  if r.size.Valid then
    { column with SizeText := Itoa r.size.Int64 }
  else if r.numericPrecision.Valid then
    let column := { column with SizeText := Itoa r.numericPrecision.Int64 }
    if r.numericScale.Valid then
      { column with SizeText := column.SizeText ++ ("," ++ Itoa r.numericScale.Int64) }
    else column
  else column

/-- The `for rows.Next()` loop of `GetColumns`: `columns` is the slice built so far; a
failed scan leaves the loop with the wrapped error. -/
def GetColumns.loop (table : String) : List Row → List Column → Except String (List Column)
  | [], columns => .ok columns
  | row :: rest, columns =>
    match row.ScanColumn with
    | .error err => .error ("failed to scan row for table [" ++ table ++ "]: " ++ err)
    | .ok r => GetColumns.loop table rest (columns ++ [columnOfScan r])

/-- Source: `(*Connection).GetColumns` in `internal/postgres/postgres.go`. -/
def GetColumns (c : Conn) (schema table : String) : Conn × List Column × Error :=
  let (c, res) := c.Query ⟨columnsQuery, [.str schema, .str table]⟩
  match res with
  | .error err => (c, [], some ("failed to find columns for table [" ++ table ++ "]: " ++ err))
  | .ok rows =>
    match GetColumns.loop table rows.next [] with
    | .error err => (c, [], some err)
    | .ok columns =>
      match rows.Err with
      | some err => (c, [], some err)
      | none => (c, columns, none)

/-- The `for i, val := range values` loop of `GetRows`, from index `i` on: the column
name is `rows.FieldDescriptions()[i].Name` (pgx hands out as many values as it has
field descriptions). -/
def GetRows.fill (fields : List String) : List Value → Nat → StringMap → StringMap
  | [], _, rowMap => rowMap
  | val :: rest, i, rowMap =>
    let colName := fields.getD i ""
    let rowMap :=
      match val with
      | .uuid v => rowMap.set colName (formatUUID v)
      | _ => rowMap.set colName (Sprint val)
    GetRows.fill fields rest (i + 1) rowMap

/-- The `for rows.Next()` loop of `GetRows`: `tableRows` is the slice built so far; a
failed `rows.Values()` leaves the loop with the wrapped error. -/
def GetRows.loop (fields : List String) :
    List Row → List StringMap → Except String (List StringMap)
  | [], tableRows => .ok tableRows
  | row :: rest, tableRows =>
    match row.Values with
    | .error err => .error ("failed to retrieve row values: " ++ err)
    | .ok values => GetRows.loop fields rest (tableRows ++ [GetRows.fill fields values 0 []])

/-- Source: `(*Connection).GetRows` in `internal/postgres/postgres.go`. The final
`return nil, err` names the `err` of the `c.Query` call, which is `nil` whenever that
line is reached; the `err` of `rows.Values()` is local to the loop body. -/
def GetRows (c : Conn) (schema table : String) (rowCount offset : Int) :
    Conn × List StringMap × Error :=
  let tableSchema := schema ++ "." ++ table
  let query := "SELECT * FROM " ++ tableSchema ++ " LIMIT $1 OFFSET $2"
  let (c, res) := c.Query ⟨query, [.int rowCount, .int offset]⟩
  match res with
  | .error err => (c, [], some ("failed to find rows for table [" ++ table ++ "]: " ++ err))
  | .ok rows =>
    let err : Error := none
    match GetRows.loop rows.FieldDescriptions rows.next [] with
    | .error e => (c, [], some e)
    | .ok tableRows =>
      if rows.Err ≠ none then (c, [], err)
      else (c, tableRows, none)

end Postgres

/-! ## The widget library (tview), seen through the calls the sources make -/

namespace Tview

/-- The `tcell` colours the sources name; `Default` is the zero value and `White` is
the primary text colour of `tview.Styles`. -/
inductive Color where
  | Default | White | Yellow | DarkCyan | DarkMagenta | Green | Red
deriving DecidableEq, Repr

/-- The alignment constants `AlignLeft`, `AlignCenter`, `AlignRight`. -/
inductive Align where
  | Left | Center | Right
deriving DecidableEq, Repr

/-- The fields of `tview.TableCell` the sources set. -/
structure TableCell where
  Text : String
  Align : Align
  Color : Color
deriving DecidableEq, Repr

/-- The zero value `&TableCell\x7b\x7d`, which `SetCell` uses to pad a row. -/
def TableCell.zero : TableCell := ⟨"", .Left, .Default⟩

/-- Go `tview.NewTableCell(text)`: left aligned, primary text colour. -/
def NewTableCell (text : String) : TableCell := ⟨text, .Left, .White⟩

/-- A `tview.Table`: its cells, row by row, and whether it tracks the end
(`ScrollToEnd`). -/
structure Table where
  cells : List (List TableCell)
  trackEnd : Bool
deriving DecidableEq, Repr

/-- Go `tview.NewTable()`. -/
def NewTable : Table := ⟨[], false⟩

/-- Go `table.GetRowCount()`. -/
def Table.GetRowCount (t : Table) : Int := t.cells.length

/-- Go `table.SetCell(row, column, cell)`: the table grows to hold `row`, the row grows
to hold `column` (padded with zero cells), and the cell is stored. -/
def Table.SetCell (t : Table) (row column : Nat) (cell : TableCell) : Table :=
  let cells := if row ≥ t.cells.length
    then t.cells ++ List.replicate (row - t.cells.length + 1) []
    else t.cells
  let r := cells.getD row []
  let r := if column ≥ r.length
    then r ++ List.replicate (column - r.length + 1) TableCell.zero
    else r
  { t with cells := cells.set row (r.set column cell) }

/-- Go `table.SetCellSimple(row, column, text)`. -/
def Table.SetCellSimple (t : Table) (row column : Nat) (text : String) : Table :=
  t.SetCell row column (NewTableCell text)

/-- Go `table.ScrollToEnd()`. -/
def Table.ScrollToEnd (t : Table) : Table := { t with trackEnd := true }

/-- One text line of a `tview.Frame`. -/
structure FrameText where
  Text : String
  Header : Bool
  Align : Align
  Color : Color
deriving DecidableEq, Repr

/-- A `tview.Frame`: its title and its text lines. -/
structure Frame where
  title : String
  text : List FrameText
deriving DecidableEq, Repr

/-- Go `frame.Clear()`. -/
def Frame.Clear (f : Frame) : Frame := { f with text := [] }

/-- Go `frame.AddText(text, header, align, color)`. -/
def Frame.AddText (f : Frame) (text : String) (header : Bool) (align : Align)
    (color : Color) : Frame :=
  { f with text := f.text ++ [⟨text, header, align, color⟩] }

/-- The keys a table hands to its done handler. -/
inductive Key where
  | Escape | Enter | Tab | Backtab
deriving DecidableEq, Repr

/-- One page of a `tview.Pages`. -/
structure Page (ι : Type) where
  Name : String
  Item : ι
  Visible : Bool
deriving DecidableEq, Repr

/-- Go `pages.HasPage(name)`. -/
def HasPage {ι : Type} (pages : List (Page ι)) (name : String) : Bool :=
  pages.any fun p => p.Name == name

/-- Go `pages.SwitchToPage(name)`: the named page becomes visible, every other page
hidden. -/
def SwitchToPage {ι : Type} (pages : List (Page ι)) (name : String) : List (Page ι) :=
  pages.map fun p => { p with Visible := p.Name == name }

/-- The page removal at the start of `AddPage`: the first page of that name goes. -/
def removeFirst {ι : Type} (name : String) : List (Page ι) → List (Page ι)
  | [] => []
  | p :: ps => if p.Name = name then ps else p :: removeFirst name ps

/-- Go `pages.AddPage(name, item, resize, visible)`: a page of the same name is removed,
the new page is appended. -/
def AddPage {ι : Type} (pages : List (Page ι)) (name : String) (item : ι)
    (visible : Bool) : List (Page ι) :=
  removeFirst name pages ++ [⟨name, item, visible⟩]

/-- The page that `Pages.Focus` hands the focus to: the last visible one. -/
def topVisible {ι : Type} (pages : List (Page ι)) : Option (Page ι) :=
  (pages.filter fun p => p.Visible).getLast?

end Tview

/-! ## The state shared by both user interfaces -/

/-- The widget holding the application focus: one of the lists of the finder page, or
the table of a content page. -/
inductive Widget where
  | databases | schemas | tables
  | contentTable (pageName : String)
deriving DecidableEq, Repr

/-- The variables one `content` call creates and its closures share. -/
structure View where
  /-- The key of the connection the closures query -/
  dbName : String
  /-- The table name the closures put into their query text -/
  tableName : String
  table : Tview.Table
  frame : Tview.Frame
  rowCount : Int
deriving DecidableEq, Repr

/-- What a page shows: the finder layout or the frame of one `content` call. -/
inductive Item where
  | finder
  | content (v : View)
deriving DecidableEq, Repr

/-- The `TermUI` value of either user interface. `pages` is the application root, so
it holds the focus throughout and `AddPage` / `SwitchToPage` pass the focus on to the
top visible page. -/
structure TermUI where
  connections : List (String × Conn)
  pages : List (Tview.Page Item)
  /-- The value of `app.GetFocus()` -/
  focus : Option Widget
  finderFocus : Option Widget

/-- The name of the Finder page. -/
def finderPage : String := "*finder*"

/-- Map lookup `connections[name]`. -/
def TermUI.conn (t : TermUI) (name : String) : Option Conn := t.connections.lookup name

/-- Store the connection value back under its key. -/
def TermUI.setConn (t : TermUI) (name : String) (c : Conn) : TermUI :=
  { t with connections := t.connections.map fun e => if e.1 = name then (name, c) else e }

/-- The widget `Pages.Focus` delegates to: the first list of the finder layout, or the
table inside the frame of a content page. -/
def focusTarget (pages : List (Tview.Page Item)) : Option Widget :=
  match Tview.topVisible pages with
  | none => none
  | some p =>
    match p.Item with
    | .finder => some .databases
    | .content _ => some (.contentTable p.Name)

/-- Go `t.pages.SwitchToPage(name)` on the application state. -/
def TermUI.SwitchToPage (t : TermUI) (name : String) : TermUI :=
  let pages := Tview.SwitchToPage t.pages name
  { t with pages := pages, focus := focusTarget pages }

/-- Go `t.pages.AddPage(name, item, true, true)` on the application state. -/
def TermUI.AddPage (t : TermUI) (name : String) (item : Item) : TermUI :=
  let pages := Tview.AddPage t.pages name item true
  { t with pages := pages, focus := focusTarget pages }

/-- The view shown by the page of that name, if it is a content page. -/
def TermUI.view (t : TermUI) (pageName : String) : Option View :=
  match t.pages.find? fun p => p.Name == pageName with
  | some ⟨_, .content v, _⟩ => some v
  | _ => none

/-- Store the view of a content page back into its page. -/
def TermUI.setView (t : TermUI) (pageName : String) (v : View) : TermUI :=
  { t with pages := t.pages.map fun p =>
      if p.Name = pageName then { p with Item := .content v } else p }


namespace Termui

/-- Source: the handler given to `tableFrame.SetDoneFunc` in `content` of
`internal/termui/termui.go`; the call of `loadRows` under `KeyEnter` is commented out
there. -/
def done (tui : TermUI) (pageName : String) (key : Tview.Key) : TermUI :=
  match key with
  | .Escape =>
    let tui := tui.SwitchToPage finderPage
    if tui.finderFocus ≠ none then { tui with focus := tui.finderFocus } else tui
  | .Enter =>
    match tui.view pageName with
    | some v => tui.setView pageName { v with table := v.table.ScrollToEnd }
    | none => tui
  | _ => tui

/-- Source: `(*TermUI).content` in `internal/termui/termui.go`. A `panic` is the
`error` result. The body of `loadRows` and its first call are commented out in the
source, so the page is added with an empty table. -/
def content (tui : TermUI) (dbName schema table : String) : Except String TermUI :=
  let tui := { tui with finderFocus := tui.focus }
  let pageName := dbName ++ "." ++ schema ++ "." ++ table
  if Tview.HasPage tui.pages pageName then
    .ok (tui.SwitchToPage pageName)
  else
    let tableFrame := Tview.NewTable
    let frame : Tview.Frame := ⟨"Contents of table \"" ++ table ++ "\"", []⟩
    match tui.conn dbName with
    | none => .error "invalid memory address or nil pointer dereference"
    | some c =>
      let (c, res) := c.QueryRowScanInt ⟨"select count(*) from " ++ table, []⟩
      match res with
      | .error err => .error err
      | .ok rowCount =>
        let tui := tui.setConn dbName c
        .ok (tui.AddPage pageName (.content ⟨dbName, table, tableFrame, frame, rowCount⟩))

end Termui

namespace Experimental

/-- The number of rows loaded per batch. -/
def batchSize : Int := 80

/-- Go `reflect.TypeOf(value)`, as the text of its `String()`; `none` is the nil type
of a nil interface value. -/
def typeOf : Value → Option String
  | .int64 _ => some "int64"
  | .float64 _ => some "float64"
  | .string _ => some "string"
  | .time _ => some "time.Time"
  | .bytes _ => some "[]uint8"
  | .uuid _ => some "[16]uint8"
  | .null => none
  | .other typeName _ => some typeName

/-- Go `string(str)` of a byte slice; each byte is taken as the character of that code,
which is exact for ASCII. -/
def bytesToString (b : List Byte) : String := String.mk (b.map fun x => Char.ofNat x.val)

/-- The type switch of `loadRows`: the cell each branch stores for one column value
(`SetCellSimple` stores `NewTableCell` of its text). -/
def formatCell (column : Value) : Tview.TableCell :=
  match column with
  | .int64 value => ⟨Itoa value, .Right, .DarkCyan⟩
  | .float64 value => ⟨value.fixed2, .Right, .DarkCyan⟩
  | .string value => Tview.NewTableCell value
  | .time value => ⟨value.date, .Right, .DarkMagenta⟩
  | .bytes value => ⟨bytesToString value, .Right, .Green⟩
  | .null => ⟨"NULL", .Center, .Red⟩
  | value =>
    let t := typeOf value
    let str := match t with
      | none => "?nil?"
      | some name => "?" ++ name ++ "?"
    Tview.NewTableCell str

/-- The body of the loop over `columns` in `loadRows`: every branch of the type switch
stores its cell at `(row, index)`. -/
def setValue (table : Tview.Table) (row index : Nat) (column : Value) : Tview.Table :=
  table.SetCell row index (formatCell column)

/-- The loop `for index, column := range columns` of `loadRows`, from `index` on. -/
def setValues (table : Tview.Table) (row : Nat) : List Value → Nat → Tview.Table
  | [], _ => table
  | column :: rest, index => setValues (setValue table row index column) row rest (index + 1)

/-- The loop `for index, name := range columnNames` of `loadRows`, from `index` on. -/
def setHeader (table : Tview.Table) : List String → Nat → Tview.Table
  | [], _ => table
  | name :: rest, index =>
    setHeader (table.SetCell 0 index ⟨name, .Center, .Yellow⟩) rest (index + 1)

/-- The loop `for rows.Next()` of `loadRows`: each row is scanned into `columns` and
transferred to a new table row at `table.GetRowCount()`; a failed scan panics. -/
def readRows : List Row → Tview.Table → Except String Tview.Table
  | [], table => .ok table
  | r :: rest, table =>
    match r.Values with
    | .error err => .error err
    | .ok columns =>
      let row := table.GetRowCount.toNat
      readRows rest (setValues table row columns 0)

/-- Source: the closure `loadRows` in `content` of `experimental/v2/main.go`, acting on
the variables it captures. A `panic` is the `error` result. -/
def loadRows (db : Conn) (v : View) (offset : Int) : Except String (Conn × View) :=
  let (db, res) := db.Query
    ⟨"select * from " ++ v.tableName ++ " limit $1 offset $2", [.int batchSize, .int offset]⟩
  match res with
  | .error err => .error err
  | .ok rows =>
    let columnNames := rows.FieldDescriptions
    let table := setHeader v.table columnNames 0
    match readRows rows.next table with
    | .error err => .error err
    | .ok table =>
      match rows.Err with
      | some err => .error err
      | none =>
        let frame := v.frame.Clear
        let loadMore := if table.GetRowCount - 1 < v.rowCount
          then " - press Enter to load more" else ""
        let loadMore := "Loaded " ++ Itoa (table.GetRowCount - 1) ++ " of " ++
          Itoa v.rowCount ++ " rows" ++ loadMore
        let frame := frame.AddText loadMore false .Center .Yellow
        .ok (db, { v with table := table, frame := frame })

/-- Source: `(*TermUI).content` in `experimental/v2/main.go`. The `db` argument is
`t.conns[dbName]` at the only call site, so it is passed as that key. A `panic` is the
`error` result. -/
def content (t : TermUI) (dbName tableName : String) : Except String TermUI :=
  if Tview.HasPage t.pages (dbName ++ "." ++ tableName) then
    .ok (t.SwitchToPage (dbName ++ "." ++ tableName))
  else
    let table := Tview.NewTable
    let frame : Tview.Frame := ⟨"Contents of table \"" ++ tableName ++ "\"", []⟩
    match t.conn dbName with
    | none => .error "invalid memory address or nil pointer dereference"
    | some db =>
      let (db, res) := db.QueryRowScanInt ⟨"select count(*) from " ++ tableName, []⟩
      match res with
      | .error err => .error err
      | .ok rowCount =>
        match loadRows db ⟨dbName, tableName, table, frame, rowCount⟩ 0 with
        | .error err => .error err
        | .ok (db, v) =>
          .ok ((t.setConn dbName db).AddPage (dbName ++ "." ++ tableName) (.content v))

/-- Source: the handler given to `table.SetDoneFunc` in `content` of
`experimental/v2/main.go`, for the content page of that name. -/
def done (t : TermUI) (pageName : String) (key : Tview.Key) : Except String TermUI :=
  match t.view pageName with
  | none => .ok t
  | some v =>
    match key with
    | .Escape =>
      let t := t.SwitchToPage finderPage
      .ok (if t.finderFocus ≠ none then { t with focus := t.finderFocus } else t)
    | .Enter =>
      match t.conn v.dbName with
      | none => .error "invalid memory address or nil pointer dereference"
      | some db =>
        match loadRows db v (v.table.GetRowCount - 1) with
        | .error err => .error err
        | .ok (db, v) =>
          .ok ((t.setConn v.dbName db).setView pageName
            { v with table := v.table.ScrollToEnd })
    | _ => .ok t

end Experimental

/-! ## Reference notions used to state the claims -/

/-- Lowercase hexadecimal text of a byte sequence, written with the digit characters of
the Lean core library: high nibble first. -/
def lowerHex (bs : List Byte) : List Char :=
  bs.flatMap fun v => [Nat.digitChar (v.val / 16), Nat.digitChar (v.val % 16)]

/-- The bytes `12 34 56 78 12 34 12 34 12 34 12 34 56 78 90 12` (hexadecimal). -/
def sampleUUID : Bytes16 :=
  ⟨[0x12, 0x34, 0x56, 0x78, 0x12, 0x34, 0x12, 0x34,
    0x12, 0x34, 0x12, 0x34, 0x56, 0x78, 0x90, 0x12], rfl⟩

/-- A nullable catalog number as an optional value: `none` when it is not defined. -/
def Pgtype.Int8.toOption (x : Pgtype.Int8) : Option Int :=
  if x.Valid then some x.Int64 else none

/-- The size text as the specification words it, from the optional character length,
numeric precision and numeric scale. -/
def sizeTextSpec : Option Int → Option Int → Option Int → String
  | some len, _, _ => Itoa len
  | none, some precision, some scale => Itoa precision ++ "," ++ Itoa scale
  | none, some precision, none => Itoa precision
  | none, none, _ => ""

/-- The ordinal positions of a column sequence, in sequence order. -/
def ordinals (columns : List Postgres.Column) : List Int :=
  columns.map fun c => c.OrdinalPosition

/-- A catalog number that is not defined (SQL null). -/
def undefined : Pgtype.Int8 := ⟨0, false⟩

/-- A catalog number that is defined. -/
def defined (n : Int) : Pgtype.Int8 := ⟨n, true⟩

/-- The scan of a catalog row of a non-nullable column without constraint. -/
def scanOf (name dataType : String) (size precision scale : Pgtype.Int8) (ordinal : Int) :
    ColumnScan :=
  ⟨name, "NO", dataType, size, precision, scale, ordinal, ⟨"", false⟩⟩

/-- A row of a catalog result: it scans into the destinations of `GetColumns`. -/
def catalogRow (r : ColumnScan) : Row :=
  { Values := .error "not read", ScanColumn := .ok r }

/-- A row of a table result: it is read as a list of values. -/
def valuesRow (values : List Value) : Row :=
  { Values := .ok values
    ScanColumn := .error "number of field descriptions must equal number of destinations" }

/-- A connection whose database answers every `Query` with the given rows. -/
def answering (rows : Rows) : Conn :=
  { name := "generic"
    answer := fun _ => .ok rows
    answerInt := fun _ => .error "no rows in result set"
    log := [] }

/-- The catalog rows of a table with columns `id` (position 1) and `name`
(position 2), delivered in the order `name`, `id`. -/
def catalogNameId : Conn :=
  answering ⟨[], [catalogRow (scanOf "name" "character varying" (defined 50) undefined undefined 2),
                  catalogRow (scanOf "id" "bigint" undefined (defined 64) (defined 0) 1)], none⟩

/-- The catalog rows of a table with three columns, in position order: a character
length of 50 without precision, a precision of 10 with scale 2, and neither. -/
def catalogSizes : Conn :=
  answering ⟨[], [catalogRow (scanOf "name" "character varying" (defined 50) undefined undefined 1),
                  catalogRow (scanOf "price" "numeric" undefined (defined 10) (defined 2) 2),
                  catalogRow (scanOf "note" "text" undefined undefined undefined 3)], none⟩

/-- A table result with one row whose single column `deleted_at` is null. -/
def oneNullRow : Conn :=
  answering ⟨["deleted_at"], [valuesRow [.null]], none⟩

/-- A table result that hands out one row and then ends with an iteration error. -/
def brokenAfterOneRow : Conn :=
  answering ⟨["id"], [valuesRow [.int64 1]], some "unexpected EOF"⟩

/-- A catalog result that hands out one row and then ends with an iteration error. -/
def catalogBrokenAfterOneRow : Conn :=
  answering ⟨[], [catalogRow (scanOf "id" "bigint" undefined (defined 64) (defined 0) 1)],
    some "unexpected EOF"⟩

/-- A table result without rows. -/
def emptyResult : Conn := answering ⟨["id"], [], none⟩

/-- A database holding one relation that never changes: a row query bound to
`[limit, offset]` is answered with the rows from `offset` on, at most `limit` of them,
and a count with the number of rows. A negative limit or offset is refused. -/
def fixedTable (name : String) (columns : List String) (rows : List (List Value)) : Conn :=
  { name := name
    answer := fun q =>
      match q.args with
      | [.int limit, .int offset] =>
        if limit < 0 ∨ offset < 0 then .error "LIMIT and OFFSET must not be negative"
        else .ok ⟨columns,
          ((rows.drop offset.toNat).take limit.toNat).map valuesRow, none⟩
      | _ => .error "expected 2 arguments"
    answerInt := fun _ => .ok rows.length
    log := [] }

/-- The user interface right after start-up over one connection: only the finder page,
with the focus on its first list. -/
def startUI (c : Conn) : TermUI :=
  { connections := [(c.name, c)]
    pages := [⟨finderPage, .finder, true⟩]
    focus := some .databases
    finderFocus := none }

/-- The Enter key pressed `n` times on the content page of that name. -/
def pressEnter (pageName : String) : Nat → TermUI → Except String TermUI
  | 0, t => .ok t
  | n + 1, t =>
    match Experimental.done t pageName .Enter with
    | .error err => .error err
    | .ok t => pressEnter pageName n t

/-- The number of data rows a content view shows, as its status line computes it:
`table.GetRowCount() - 1`. -/
def View.loaded (v : View) : Int := v.table.GetRowCount - 1

/-- The header row `loadRows` writes for the given column names. -/
def headerCells (columns : List String) : List Tview.TableCell :=
  columns.map fun name => ⟨name, .Center, .Yellow⟩

/-- The status line `loadRows` puts into the frame for the given loaded and total
counts. -/
def statusLine (loaded total : Int) : Tview.FrameText :=
  ⟨"Loaded " ++ Itoa loaded ++ " of " ++ Itoa total ++ " rows" ++
      (if loaded < total then " - press Enter to load more" else ""),
    false, .Center, .Yellow⟩

/-- The count query `content` of `experimental/v2/main.go` sends for a table. -/
def countCall (tableName : String) : QueryCall :=
  ⟨"select count(*) from " ++ tableName, []⟩

/-- The row query `loadRows` sends for a table at an offset. -/
def batchCall (tableName : String) (offset : Int) : QueryCall :=
  ⟨"select * from " ++ tableName ++ " limit $1 offset $2", [.int 80, .int offset]⟩

/-- The content view of a fixed table once `fetches` batches have been fetched: the
header, the first `min (fetches * 80) R` rows formatted cell by cell, and the status
line for that count. -/
def shownView (name tableName : String) (columns : List String) (rows : List (List Value))
    (fetches : Nat) : View :=
  { dbName := name
    tableName := tableName
    table :=
      ⟨headerCells columns ::
          (rows.take (min (fetches * 80) rows.length)).map fun r => r.map Experimental.formatCell,
        decide (1 < fetches)⟩
    frame := ⟨"Contents of table \"" ++ tableName ++ "\"",
      [statusLine (min (fetches * 80) rows.length : Nat) rows.length]⟩
    rowCount := rows.length }

/-- The application over a fixed table once its content page has been opened and
`fetches` batches have been fetched (the first one by `content`). -/
def shownUI (name tableName : String) (columns : List String) (rows : List (List Value))
    (fetches : Nat) : TermUI :=
  { connections :=
      [(name, { fixedTable name columns rows with
          log := countCall tableName ::
            (List.range fetches).map fun i =>
              batchCall tableName (min (i * 80) rows.length : Nat) })]
    pages := [⟨finderPage, .finder, true⟩,
      ⟨name ++ "." ++ tableName, .content (shownView name tableName columns rows fetches), true⟩]
    focus := some (.contentTable (name ++ "." ++ tableName))
    finderFocus := none }

/-- The application after `k` batch fetches of one table, `k ≥ 1`: right after start-up
the content page is opened, which fetches the first batch, and Enter is pressed
`k - 1` times on it. -/
def afterFetches (c : Conn) (tableName : String) (k : Nat) : Except String TermUI :=
  match Experimental.content (startUI c) c.name tableName with
  | .error err => .error err
  | .ok t => pressEnter (c.name ++ "." ++ tableName) (k - 1) t

/-- The log of the calls sent over the connection of that name. -/
def TermUI.log (t : TermUI) (name : String) : Option (List QueryCall) :=
  (t.conn name).map fun c => c.log

/-- The names and items of the pages, without their visibility. -/
def pageItems (pages : List (Tview.Page Item)) : List (String × Item) :=
  pages.map fun p => (p.Name, p.Item)

/-- A table of one row with the single column `id`. -/
def oneRow : Conn := fixedTable "generic" ["id"] [[Value.int64 7]]

/-- The user interface while the user browses the schema list of the finder. -/
def browsing (c : Conn) : TermUI :=
  { startUI c with focus := some .schemas }

/-- The user interface after `content` of `internal/termui` has opened `public.users`
of the one-row table from the schema list: the count query is logged, the content page
is added with an empty table and holds the focus, and `finderFocus` is the schema
list. -/
def usersOpened : TermUI :=
  { connections := [("generic", { oneRow with log := [⟨"select count(*) from users", []⟩] })]
    pages := [⟨finderPage, .finder, true⟩,
      ⟨"generic.public.users",
        .content ⟨"generic", "users", Tview.NewTable, ⟨"Contents of table \"users\"", []⟩, 1⟩,
        true⟩]
    focus := some (.contentTable "generic.public.users")
    finderFocus := some .schemas }

/-- The page key `content` of `internal/termui` builds for a connection name, a schema
and a table. -/
def pageKey (dbName schema table : String) : String :=
  dbName ++ "." ++ schema ++ "." ++ table

/-- The user interface while the user browses the schema list, over two connections
named `a.b` and `a`, each to a table of one row. -/
def browsingTwo : TermUI :=
  { connections := [("a.b", { oneRow with name := "a.b" }), ("a", { oneRow with name := "a" })]
    pages := [⟨finderPage, .finder, true⟩]
    focus := some .schemas
    finderFocus := none }

/-- The value of one hexadecimal digit character, `0` to `9` and `a` to `f`. -/
def hexValue (c : Char) : Nat :=
  if c.isDigit then c.toNat - '0'.toNat else c.toNat - 'a'.toNat + 10

/-- Hexadecimal decoding: every two characters give one byte value, high digit
first. -/
def decodeHex : List Char → List Nat
  | hi :: lo :: rest => (hexValue hi * 16 + hexValue lo) :: decodeHex rest
  | _ => []

/-- The bytes read back from a formatted UUID: the `-` characters are removed and the
remaining characters are decoded as hexadecimal. -/
def decodeUUID (s : String) : List Nat :=
  decodeHex (s.toList.filter fun c => c != '-')

/-- The UUID of sixteen zero bytes. -/
def zeroUUID : Bytes16 := ⟨List.replicate 16 0, rfl⟩

/-- A table of 150 rows with the single column `id`. -/
def users150 : Conn :=
  fixedTable "generic" ["id"] ((List.range 150).map fun i => [Value.int64 i])

/-! ## Theorems -/

open Postgres Tview Experimental

/-! ### Hexadecimal text and `formatUUID` -/

set_option maxRecDepth 100000 in
theorem Hex.digit_hi : ∀ v : Byte, Hex.digit (v.val >>> 4) = Nat.digitChar (v.val / 16) := by
  decide

set_option maxRecDepth 100000 in
theorem Hex.digit_lo : ∀ v : Byte, Hex.digit (v.val &&& 0x0f) = Nat.digitChar (v.val % 16) := by
  decide

theorem Hex.EncodeToString_eq (bs : List Byte) :
    Hex.EncodeToString bs = String.mk (lowerHex bs) := by
  simp only [Hex.EncodeToString, lowerHex, Hex.digit_hi, Hex.digit_lo]

theorem lowerHex_length (bs : List Byte) : (lowerHex bs).length = 2 * bs.length := by
  induction bs with
  | nil => rfl
  | cons b bs ih => simp [lowerHex, List.flatMap_cons] at ih ⊢; omega

set_option maxRecDepth 100000 in
theorem lowerHex_digits : ∀ v : Byte,
    Nat.digitChar (v.val / 16) ∈ "0123456789abcdef".toList ∧
    Nat.digitChar (v.val % 16) ∈ "0123456789abcdef".toList := by
  decide

theorem mem_lowerHex (bs : List Byte) (c : Char) (h : c ∈ lowerHex bs) :
    c ∈ "0123456789abcdef".toList := by
  simp only [lowerHex, List.mem_flatMap] at h
  obtain ⟨v, -, hv⟩ := h
  simp only [List.mem_cons, List.mem_singleton, List.not_mem_nil, or_false] at hv
  rcases hv with rfl | rfl
  · exact (lowerHex_digits v).1
  · exact (lowerHex_digits v).2

theorem formatUUID_text (b : Bytes16) :
    formatUUID b = String.mk
      ((lowerHex b.val).take 8 ++ '-' :: ((lowerHex b.val).drop 8).take 4 ++
        '-' :: ((lowerHex b.val).drop 12).take 4 ++
        '-' :: ((lowerHex b.val).drop 16).take 4 ++
        '-' :: ((lowerHex b.val).drop 20).take 12) := by
  have hlen : (lowerHex b.val).length = 32 := by rw [lowerHex_length, b.property]
  simp only [formatUUID, Hex.EncodeToString_eq, String.length, hlen, ne_eq,
    not_true_eq_false, if_false, Join, slice]
  apply String.ext
  simp [String.toList]

/-- C1: for every 16-byte array `b`, the lowercase hexadecimal text of `b` has 32
characters, all of them among `0123456789abcdef`, and `formatUUID b` is that text cut
into groups of 8, 4, 4, 4 and 12 characters joined by single `-` characters, 36
characters in all; the bytes `12345678123412341234123456789012` format to
`12345678-1234-1234-1234-123456789012`. -/
theorem formatUUID_grouped (b : Bytes16) :
    (lowerHex b.val).length = 32 ∧
    (∀ c ∈ lowerHex b.val, c ∈ "0123456789abcdef".toList) ∧
    formatUUID b = String.mk
      ((lowerHex b.val).take 8 ++ '-' :: ((lowerHex b.val).drop 8).take 4 ++
        '-' :: ((lowerHex b.val).drop 12).take 4 ++
        '-' :: ((lowerHex b.val).drop 16).take 4 ++
        '-' :: ((lowerHex b.val).drop 20).take 12) ∧
    (formatUUID b).length = 36 ∧
    formatUUID sampleUUID = "12345678-1234-1234-1234-123456789012" := by
  have hlen : (lowerHex b.val).length = 32 := by rw [lowerHex_length, b.property]
  have hfmt := formatUUID_text b
  refine ⟨hlen, mem_lowerHex b.val, hfmt, ?_, by decide⟩
  rw [hfmt]
  simp [String.length, hlen]

/-! ### The catalog reader -/

theorem GetColumns.loop_ok (table : String) (scans : List ColumnScan) (rows : List Row)
    (hs : rows.map (fun r => r.ScanColumn) = scans.map Except.ok) (acc : List Column) :
    GetColumns.loop table rows acc = .ok (acc ++ scans.map columnOfScan) := by
  induction rows generalizing scans acc with
  | nil =>
    cases scans with
    | nil => simp [GetColumns.loop]
    | cons s ss => simp at hs
  | cons r rs ih =>
    cases scans with
    | nil => simp at hs
    | cons s ss =>
      simp only [List.map_cons, List.cons.injEq] at hs
      simp only [GetColumns.loop, hs.1]
      rw [ih ss hs.2]
      simp

theorem GetColumns.loop_mem (table : String) (rows : List Row) (acc columns : List Column)
    (h : GetColumns.loop table rows acc = .ok columns) (col : Column) (hc : col ∈ columns) :
    col ∈ acc ∨ ∃ row ∈ rows, ∃ r, row.ScanColumn = .ok r ∧ col = columnOfScan r := by
  induction rows generalizing acc with
  | nil =>
    simp only [GetColumns.loop, Except.ok.injEq] at h
    exact Or.inl (h ▸ hc)
  | cons row rest ih =>
    simp only [GetColumns.loop] at h
    cases hr : row.ScanColumn with
    | error e => simp [hr] at h
    | ok r =>
      simp only [hr] at h
      rcases ih _ h with hm | ⟨row', hrow', r', h1, h2⟩
      · rcases List.mem_append.mp hm with hm | hm
        · exact Or.inl hm
        · refine Or.inr ⟨row, List.mem_cons_self _ _, r, hr, ?_⟩
          simpa using hm
      · exact Or.inr ⟨row', List.mem_cons_of_mem _ hrow', r', h1, h2⟩

theorem GetColumns_mem (c : Conn) (schema table : String) (col : Column)
    (hc : col ∈ (GetColumns c schema table).2.1) :
    ∃ (rows : Rows) (row : Row) (r : ColumnScan),
      c.answer ⟨columnsQuery, [.str schema, .str table]⟩ = .ok rows ∧
      row ∈ rows.next ∧ row.ScanColumn = .ok r ∧ col = columnOfScan r := by
  simp only [GetColumns, Conn.Query] at hc
  cases hq : c.answer ⟨columnsQuery, [.str schema, .str table]⟩ with
  | error e => simp [hq] at hc
  | ok rows =>
    simp only [hq] at hc
    cases hl : GetColumns.loop table rows.next [] with
    | error e => simp [hl] at hc
    | ok columns =>
      simp only [hl] at hc
      cases he : rows.Err with
      | some e => simp [he] at hc
      | none =>
        simp only [he] at hc
        rcases GetColumns.loop_mem table rows.next [] columns hl col hc with
          hm | ⟨row, hrow, r, h1, h2⟩
        · simp at hm
        · exact ⟨rows, row, r, rfl, hrow, h1, h2⟩

theorem columnOfScan_sizeText (r : ColumnScan) :
    (columnOfScan r).SizeText =
      sizeTextSpec r.size.toOption r.numericPrecision.toOption r.numericScale.toOption := by
  unfold columnOfScan Pgtype.Int8.toOption
  split_ifs <;> simp [sizeTextSpec, String.append_assoc]

theorem columnOfScan_ordinal (r : ColumnScan) :
    (columnOfScan r).OrdinalPosition = r.OrdinalPosition := by
  unfold columnOfScan
  split_ifs <;> rfl

theorem GetColumns_ok (c : Conn) (schema table : String) (rows : Rows)
    (scans : List ColumnScan)
    (hq : c.answer ⟨columnsQuery, [.str schema, .str table]⟩ = .ok rows)
    (hs : rows.next.map (fun r => r.ScanColumn) = scans.map Except.ok)
    (he : rows.Err = none) :
    (GetColumns c schema table).2 = (scans.map columnOfScan, none) := by
  simp only [GetColumns, Conn.Query, hq, GetColumns.loop_ok table scans rows.next hs, he]
  simp

/-- C2: when the catalog query succeeds, every row scans and the iteration ends without
error, `GetColumns` returns one column per scanned catalog row, in row order and
without error, and the `SizeText` of each is the decimal character length when that
is defined, whatever precision and scale are; otherwise the decimal precision, followed
by `,` and the decimal scale when the scale is defined too; otherwise the empty string.
Conversely every column `GetColumns` returns is built from one scanned row of the
answer in this way. Length 50 gives `50`, precision 10 with scale 2 gives `10,2`,
neither length nor precision gives the empty string. -/
theorem GetColumns_sizeText :
    (∀ (c : Conn) (schema table : String) (rows : Rows) (scans : List ColumnScan),
      c.answer ⟨columnsQuery, [.str schema, .str table]⟩ = .ok rows →
      rows.next.map (fun r => r.ScanColumn) = scans.map Except.ok →
      rows.Err = none →
      (GetColumns c schema table).2.2 = none ∧
      ((GetColumns c schema table).2.1.map fun col => col.Name) =
        (scans.map fun r => r.Name) ∧
      ((GetColumns c schema table).2.1.map fun col => col.SizeText) =
        scans.map fun r =>
          sizeTextSpec r.size.toOption r.numericPrecision.toOption r.numericScale.toOption) ∧
    (∀ (c : Conn) (schema table : String) (col : Column),
      col ∈ (GetColumns c schema table).2.1 →
      ∃ (rows : Rows) (row : Row) (r : ColumnScan),
        c.answer ⟨columnsQuery, [.str schema, .str table]⟩ = .ok rows ∧
        row ∈ rows.next ∧ row.ScanColumn = .ok r ∧
        col.Name = r.Name ∧ col.OrdinalPosition = r.OrdinalPosition ∧
        col.SizeText =
          sizeTextSpec r.size.toOption r.numericPrecision.toOption r.numericScale.toOption) ∧
    (∀ r : ColumnScan,
      (columnOfScan r).SizeText =
        sizeTextSpec r.size.toOption r.numericPrecision.toOption r.numericScale.toOption) ∧
    (∀ (name dataType : String) (precision scale : Pgtype.Int8) (ordinal : Int),
      (columnOfScan (scanOf name dataType (defined 50) precision scale ordinal)).SizeText
        = "50") ∧
    (∀ (name dataType : String) (ordinal : Int),
      (columnOfScan (scanOf name dataType undefined (defined 10) (defined 2) ordinal)).SizeText
        = "10,2") ∧
    (∀ (name dataType : String) (scale : Pgtype.Int8) (ordinal : Int),
      (columnOfScan (scanOf name dataType undefined undefined scale ordinal)).SizeText = "") ∧
    ((GetColumns catalogSizes "public" "users").2.1.map fun col => col.SizeText)
      = ["50", "10,2", ""] := by
  refine ⟨?_, ?_, columnOfScan_sizeText, ?_, ?_, ?_, by decide⟩
  · intro c schema table rows scans hq hs he
    have h := GetColumns_ok c schema table rows scans hq hs he
    have hn : ∀ r : ColumnScan, (columnOfScan r).Name = r.Name := by
      intro r; unfold columnOfScan; split_ifs <;> rfl
    rw [h]
    refine ⟨rfl, ?_, ?_⟩
    · simp [List.map_map, Function.comp_def, hn]
    · simp [List.map_map, Function.comp_def, columnOfScan_sizeText]
  · intro c schema table col hc
    obtain ⟨rows, row, r, hq, hrow, hs, hr⟩ := GetColumns_mem c schema table col hc
    refine ⟨rows, row, r, hq, hrow, hs, ?_, ?_, hr ▸ columnOfScan_sizeText r⟩
    · rw [hr]; unfold columnOfScan; split_ifs <;> rfl
    · rw [hr]; exact columnOfScan_ordinal r
  · intro name dataType precision scale ordinal
    rw [columnOfScan_sizeText]; rfl
  · intro name dataType ordinal
    rw [columnOfScan_sizeText]
    show sizeTextSpec none (some 10) (some 2) = "10,2"
    decide
  · intro name dataType scale ordinal
    rw [columnOfScan_sizeText]; rfl

theorem GetColumns_sizeText_witness :
    (GetColumns catalogSizes "public" "users").2.2 = none ∧
    ((GetColumns catalogSizes "public" "users").2.1.map fun col => col.Name) =
      ["name", "price", "note"] ∧
    ((GetColumns catalogSizes "public" "users").2.1.map fun col => col.SizeText) =
      [sizeTextSpec (some 50) none none, sizeTextSpec none (some 10) (some 2),
       sizeTextSpec none none none] :=
  GetColumns_sizeText.1 catalogSizes "public" "users"
    ⟨[], [catalogRow (scanOf "name" "character varying" (defined 50) undefined undefined 1),
          catalogRow (scanOf "price" "numeric" undefined (defined 10) (defined 2) 2),
          catalogRow (scanOf "note" "text" undefined undefined undefined 3)], none⟩
    [scanOf "name" "character varying" (defined 50) undefined undefined 1,
     scanOf "price" "numeric" undefined (defined 10) (defined 2) 2,
     scanOf "note" "text" undefined undefined undefined 3] rfl rfl rfl

/-- C6, counterexample: for a table whose catalog rows arrive in the order position 2,
position 1, `GetColumns` succeeds and returns the columns in that same order, which is
not ascending. -/
theorem GetColumns_unsorted :
    (GetColumns catalogNameId "public" "users").2.2 = none ∧
    ordinals (GetColumns catalogNameId "public" "users").2.1 = [2, 1] ∧
    ¬ List.Sorted (· ≤ ·) (ordinals (GetColumns catalogNameId "public" "users").2.1) := by
  decide

/-- C6, amended: when the catalog query succeeds, every row scans and the iteration ends
without error, `GetColumns` returns one column per row in the order the query
delivered the rows; its sequence of ordinal positions is that of the rows, so it is
ascending exactly when the rows arrive in ascending order. -/
theorem GetColumns_keeps_query_order (c : Conn) (schema table : String) (rows : Rows)
    (scans : List ColumnScan)
    (hq : c.answer ⟨columnsQuery, [.str schema, .str table]⟩ = .ok rows)
    (hs : rows.next.map (fun r => r.ScanColumn) = scans.map Except.ok)
    (he : rows.Err = none) :
    (GetColumns c schema table).2 = (scans.map columnOfScan, none) ∧
    ordinals (GetColumns c schema table).2.1 = scans.map (fun r => r.OrdinalPosition) ∧
    (List.Sorted (· ≤ ·) (ordinals (GetColumns c schema table).2.1) ↔
      List.Sorted (· ≤ ·) (scans.map fun r => r.OrdinalPosition)) := by
  have h : (GetColumns c schema table).2 = (scans.map columnOfScan, none) := by
    simp only [GetColumns, Conn.Query, hq, GetColumns.loop_ok table scans rows.next hs, he]
    simp
  have ho : ordinals (GetColumns c schema table).2.1 = scans.map (fun r => r.OrdinalPosition) := by
    rw [h]
    simp [ordinals, List.map_map, Function.comp_def, columnOfScan_ordinal]
  exact ⟨h, ho, by rw [ho]⟩

theorem GetColumns_keeps_query_order_witness :
    ordinals (GetColumns catalogNameId "public" "users").2.1 = [2, 1] :=
  (GetColumns_keeps_query_order catalogNameId "public" "users"
    ⟨[], [catalogRow (scanOf "name" "character varying" (defined 50) undefined undefined 2),
          catalogRow (scanOf "id" "bigint" undefined (defined 64) (defined 0) 1)], none⟩
    [scanOf "name" "character varying" (defined 50) undefined undefined 2,
     scanOf "id" "bigint" undefined (defined 64) (defined 0) 1] rfl rfl rfl).2.1

/-! ### The row reader -/

theorem GetRows_log (c : Conn) (schema table : String) (rowCount offset : Int) :
    (GetRows c schema table rowCount offset).1.log =
      c.log ++ [⟨"SELECT * FROM " ++ (schema ++ "." ++ table) ++ " LIMIT $1 OFFSET $2",
                 [.int rowCount, .int offset]⟩] := by
  simp only [GetRows, Conn.Query]
  cases c.answer ⟨"SELECT * FROM " ++ (schema ++ "." ++ table) ++ " LIMIT $1 OFFSET $2",
      [.int rowCount, .int offset]⟩ with
  | error e => rfl
  | ok rows =>
    simp only
    cases GetRows.loop rows.FieldDescriptions rows.next [] with
    | error e => rfl
    | ok tableRows =>
      simp only
      split_ifs <;> rfl

theorem GetRows.loop_error (fields : List String) (rows : List Row) (acc : List StringMap)
    (e : String) (h : GetRows.loop fields rows acc = .error e) :
    ∃ row ∈ rows, ∃ e', row.Values = .error e' := by
  induction rows generalizing acc with
  | nil => simp [GetRows.loop] at h
  | cons row rest ih =>
    simp only [GetRows.loop] at h
    cases hv : row.Values with
    | error e' => exact ⟨row, List.mem_cons_self _ _, e', hv⟩
    | ok values =>
      simp only [hv] at h
      obtain ⟨row', hm, e', he⟩ := ih _ h
      exact ⟨row', List.mem_cons_of_mem _ hm, e', he⟩

theorem GetRows.loop_fails (fields : List String) (rows : List Row) (acc : List StringMap)
    (h : ∃ row ∈ rows, ∃ e, row.Values = .error e) :
    ∃ e, GetRows.loop fields rows acc = .error e := by
  induction rows generalizing acc with
  | nil => simp at h
  | cons row rest ih =>
    simp only [GetRows.loop]
    cases hv : row.Values with
    | error e' => exact ⟨_, rfl⟩
    | ok values =>
      obtain ⟨row', hm, e', he⟩ := h
      rcases List.mem_cons.mp hm with rfl | hm'
      · rw [hv] at he; cases he
      · exact ih _ ⟨row', hm', e', he⟩

theorem GetRows_error (c : Conn) (schema table : String) (rowCount offset : Int)
    (h : (GetRows c schema table rowCount offset).2.2 ≠ none) :
    (∃ e, c.answer ⟨"SELECT * FROM " ++ (schema ++ "." ++ table) ++ " LIMIT $1 OFFSET $2",
        [.int rowCount, .int offset]⟩ = .error e) ∨
    (∃ rows, c.answer ⟨"SELECT * FROM " ++ (schema ++ "." ++ table) ++ " LIMIT $1 OFFSET $2",
        [.int rowCount, .int offset]⟩ = .ok rows ∧ ∃ row ∈ rows.next, ∃ e, row.Values = .error e) := by
  simp only [GetRows, Conn.Query] at h
  cases hq : c.answer ⟨"SELECT * FROM " ++ (schema ++ "." ++ table) ++ " LIMIT $1 OFFSET $2",
      [.int rowCount, .int offset]⟩ with
  | error e => exact Or.inl ⟨e, rfl⟩
  | ok rows =>
    refine Or.inr ⟨rows, rfl, ?_⟩
    simp only [hq] at h
    cases hl : GetRows.loop rows.FieldDescriptions rows.next [] with
    | error e => exact GetRows.loop_error _ _ _ e hl
    | ok tableRows =>
      simp only [hl] at h
      split_ifs at h <;> simp at h

/-- C7, counterexample: for the table name `users; drop table users`, which holds a
semicolon and spaces, `GetRows` sends the query text built from that name to the driver
and returns without error. -/
theorem GetRows_sends_unvalidated_name :
    (GetRows emptyResult "public" "users; drop table users" 10 0).1.log =
      [⟨"SELECT * FROM public.users; drop table users LIMIT $1 OFFSET $2", [.int 10, .int 0]⟩] ∧
    (GetRows emptyResult "public" "users; drop table users" 10 0).2.2 = none := by
  decide

/-- C7, amended: `GetRows` checks neither name. For every schema and table name it sends
exactly one query to the driver, with the text `SELECT * FROM schema.table LIMIT $1
OFFSET $2` built from the names as given; it returns an error only when the driver
fails that query or fails to hand out the values of a row. -/
theorem GetRows_always_queries (c : Conn) (schema table : String) (rowCount offset : Int) :
    (GetRows c schema table rowCount offset).1.log =
      c.log ++ [⟨"SELECT * FROM " ++ (schema ++ "." ++ table) ++ " LIMIT $1 OFFSET $2",
                 [.int rowCount, .int offset]⟩] ∧
    ((GetRows c schema table rowCount offset).2.2 ≠ none →
      (∃ e, c.answer ⟨"SELECT * FROM " ++ (schema ++ "." ++ table) ++ " LIMIT $1 OFFSET $2",
          [.int rowCount, .int offset]⟩ = .error e) ∨
      (∃ rows, c.answer ⟨"SELECT * FROM " ++ (schema ++ "." ++ table) ++ " LIMIT $1 OFFSET $2",
          [.int rowCount, .int offset]⟩ = .ok rows ∧
        ∃ row ∈ rows.next, ∃ e, row.Values = .error e)) :=
  ⟨GetRows_log c schema table rowCount offset, GetRows_error c schema table rowCount offset⟩

/-- C8, the code at the failing input: for a row whose column `deleted_at` is null,
`GetRows` returns the text `<nil>` under that column, not `NULL`; the type switch of the
table-contents view formats the same value as `NULL`. -/
theorem GetRows_null_is_nil_text :
    (GetRows oneNullRow "public" "users" 10 0).2 = ([[("deleted_at", "<nil>")]], none) ∧
    ((GetRows oneNullRow "public" "users" 10 0).2.1.map fun m => m.get "deleted_at")
      = [some "<nil>"] ∧
    (Experimental.formatCell .null).Text = "NULL" := by
  decide

/-- C9, the code at the failing input: when the driver hands out one row and then
reports an iteration error, `GetRows` returns no rows together with a nil error, while
`GetColumns` returns the error in the same situation. The other two failures are
returned: a failed query and a row whose values cannot be read both give a non-nil
error. -/
theorem GetRows_drops_iteration_error :
    (GetRows brokenAfterOneRow "public" "users" 10 0).2 = ([], none) ∧
    (GetColumns catalogBrokenAfterOneRow "public" "users").2 = ([], some "unexpected EOF") ∧
    (∀ (c : Conn) (schema table : String) (rowCount offset : Int) (e : String),
      c.answer ⟨"SELECT * FROM " ++ (schema ++ "." ++ table) ++ " LIMIT $1 OFFSET $2",
          [.int rowCount, .int offset]⟩ = .error e →
      (GetRows c schema table rowCount offset).2.2 ≠ none) ∧
    (∀ (c : Conn) (schema table : String) (rowCount offset : Int) (rows : Rows),
      c.answer ⟨"SELECT * FROM " ++ (schema ++ "." ++ table) ++ " LIMIT $1 OFFSET $2",
          [.int rowCount, .int offset]⟩ = .ok rows →
      (∃ row ∈ rows.next, ∃ e, row.Values = .error e) →
      (GetRows c schema table rowCount offset).2.2 ≠ none) := by
  refine ⟨by decide, by decide, ?_, ?_⟩
  · intro c schema table rowCount offset e hq
    simp [GetRows, Conn.Query, hq]
  · intro c schema table rowCount offset rows hq hrow
    obtain ⟨e, he⟩ := GetRows.loop_fails rows.FieldDescriptions rows.next [] hrow
    simp [GetRows, Conn.Query, hq, he]

/-- C10: for every schema and table there is one SQL text that `GetRows` sends for every
`rowCount` and every `offset`; the two numbers travel only as the bound arguments, the
limit `rowCount` first and the `offset` second. -/
theorem GetRows_query_text_fixed (c : Conn) (schema table : String) :
    ∃ sql : String, ∀ rowCount offset : Int,
      (GetRows c schema table rowCount offset).1.log =
        c.log ++ [⟨sql, [.int rowCount, .int offset]⟩] :=
  ⟨"SELECT * FROM " ++ (schema ++ "." ++ table) ++ " LIMIT $1 OFFSET $2",
    fun rowCount offset => GetRows_log c schema table rowCount offset⟩

/-! ### Tables of the widget library -/

theorem getD_append_length {α : Type} (L M : List α) (r d : α) :
    (L ++ r :: M).getD L.length d = r := by
  induction L with
  | nil => rfl
  | cons a L ih => simpa [List.getD] using ih

theorem set_append_length {α : Type} (L M : List α) (r r' : α) :
    (L ++ r :: M).set L.length r' = L ++ r' :: M := by
  induction L with
  | nil => rfl
  | cons a L ih => simp [ih]

theorem Table.SetCell_new_row (t : Table) (row : Nat) (c : TableCell)
    (h : t.cells.length = row) :
    t.SetCell row 0 c = { t with cells := t.cells ++ [[c]] } := by
  subst h
  simp [Table.SetCell, List.getD, TableCell.zero]

theorem Table.SetCell_extend (t : Table) (row col : Nat) (c : TableCell)
    (L M : List (List TableCell)) (r : List TableCell)
    (ht : t.cells = L ++ r :: M) (hL : L.length = row) (hr : r.length = col) :
    t.SetCell row col c = { t with cells := L ++ (r ++ [c]) :: M } := by
  subst hL hr
  have hlt : ¬ (L.length ≥ (L ++ r :: M).length) := by simp
  simp only [Table.SetCell, ht, hlt, if_false, getD_append_length, ge_iff_le, le_refl, if_true,
    Nat.sub_self, Nat.zero_add, List.replicate_one, set_append_length]

theorem Table.SetCell_overwrite (t : Table) (row col : Nat) (c x : TableCell)
    (L M : List (List TableCell)) (r1 r2 : List TableCell)
    (ht : t.cells = L ++ (r1 ++ x :: r2) :: M) (hL : L.length = row) (hr : r1.length = col) :
    t.SetCell row col c = { t with cells := L ++ (r1 ++ c :: r2) :: M } := by
  subst hL hr
  have hlt : ¬ (L.length ≥ (L ++ (r1 ++ x :: r2) :: M).length) := by simp
  have hlt2 : ¬ (r1.length ≥ (r1 ++ x :: r2).length) := by simp
  simp only [Table.SetCell, ht, hlt, if_false, getD_append_length, hlt2, set_append_length]

theorem setHeader_extend (names : List String) (t : Table) (i : Nat)
    (r : List TableCell) (M : List (List TableCell)) (ht : t.cells = r :: M)
    (hr : r.length = i) :
    setHeader t names i =
      { t with cells := (r ++ names.map fun n => ⟨n, .Center, .Yellow⟩) :: M } := by
  induction names generalizing t i r with
  | nil => simp [setHeader, ← ht]
  | cons n ns ih =>
    simp only [setHeader]
    rw [Table.SetCell_extend t 0 i _ [] M r ht rfl hr]
    rw [ih _ (i + 1) (r ++ [⟨n, .Center, .Yellow⟩]) rfl (by simp [hr])]
    simp

theorem setHeader_fresh (names : List String) (t : Table) (ht : t.cells = [])
    (hn : names ≠ []) :
    setHeader t names 0 = { t with cells := [names.map fun n => ⟨n, .Center, .Yellow⟩] } := by
  cases names with
  | nil => exact absurd rfl hn
  | cons n ns =>
    simp only [setHeader]
    rw [Table.SetCell_new_row t 0 _ (by simp [ht])]
    rw [setHeader_extend ns _ 1 [⟨n, .Center, .Yellow⟩] [] (by simp [ht]) rfl]
    simp

theorem setHeader_same (names : List String) (t : Table) (i : Nat)
    (pre : List TableCell) (M : List (List TableCell))
    (ht : t.cells = (pre ++ names.map fun n => ⟨n, .Center, .Yellow⟩) :: M)
    (hp : pre.length = i) :
    setHeader t names i = t := by
  induction names generalizing t i pre with
  | nil => rfl
  | cons n ns ih =>
    simp only [setHeader]
    have h1 : t.SetCell 0 i ⟨n, .Center, .Yellow⟩ = t := by
      rw [Table.SetCell_overwrite t 0 i _ ⟨n, .Center, .Yellow⟩ [] M pre
        (ns.map fun n => ⟨n, .Center, .Yellow⟩) (by simpa using ht) rfl hp]
      cases t
      simp only [List.nil_append] at ht ⊢
      simp [ht]
    rw [h1]
    exact ih t (i + 1) (pre ++ [⟨n, .Center, .Yellow⟩]) (by simpa using ht) (by simp [hp])

theorem setValues_extend (vals : List Value) (t : Table) (row i : Nat)
    (L : List (List TableCell)) (r : List TableCell) (ht : t.cells = L ++ [r])
    (hL : L.length = row) (hr : r.length = i) :
    setValues t row vals i = { t with cells := L ++ [r ++ vals.map formatCell] } := by
  induction vals generalizing t i r with
  | nil => simp [setValues, ← ht]
  | cons v vs ih =>
    simp only [setValues, setValue]
    rw [Table.SetCell_extend t row i _ L [] r ht hL hr]
    rw [ih _ (i + 1) (r ++ [formatCell v]) rfl (by simp [hr])]
    simp

theorem setValues_fresh (vals : List Value) (t : Table) (hv : vals ≠ []) :
    setValues t t.cells.length vals 0 = { t with cells := t.cells ++ [vals.map formatCell] } := by
  cases vals with
  | nil => exact absurd rfl hv
  | cons v vs =>
    simp only [setValues, setValue]
    rw [Table.SetCell_new_row t _ _ rfl]
    rw [setValues_extend vs _ t.cells.length 1 t.cells [formatCell v] rfl rfl rfl]
    simp

theorem readRows_values (rows : List (List Value)) (t : Table)
    (hv : ∀ r ∈ rows, r ≠ []) :
    readRows (rows.map valuesRow) t =
      .ok { t with cells := t.cells ++ rows.map fun r => r.map formatCell } := by
  induction rows generalizing t with
  | nil => simp [readRows]
  | cons r rs ih =>
    simp only [List.map_cons, readRows, valuesRow, Table.GetRowCount, Int.toNat_ofNat]
    rw [setValues_fresh r t (hv r (List.mem_cons_self _ _))]
    rw [ih _ (fun r' hr' => hv r' (List.mem_cons_of_mem _ hr'))]
    simp

/-! ### The content view over a fixed table -/

theorem setHeader_shown (columns : List String) (t : Table) (data : List (List TableCell))
    (hc : columns ≠ [])
    (ht : (t.cells = [] ∧ data = []) ∨ t.cells = headerCells columns :: data) :
    setHeader t columns 0 = { t with cells := headerCells columns :: data } := by
  rcases ht with ⟨h1, h2⟩ | h
  · subst h2
    exact setHeader_fresh columns t h1 hc
  · rw [setHeader_same columns t 0 [] data (by simpa [headerCells] using h) rfl]
    cases t
    simp only at h
    simp [h]

theorem loadRows_fixed (name : String) (columns : List String) (rows : List (List Value))
    (db : Conn) (v : View) (data : List (List TableCell))
    (hdb : db.answer = (fixedTable name columns rows).answer)
    (hc : columns ≠ []) (hr : ∀ r ∈ rows, r ≠ [])
    (ht : (v.table.cells = [] ∧ data = []) ∨ v.table.cells = headerCells columns :: data) :
    loadRows db v data.length = .ok
      ({ db with log := db.log ++ [batchCall v.tableName data.length] },
       { v with
          table := { v.table with cells := headerCells columns ::
            (data ++ ((rows.drop data.length).take 80).map fun r => r.map formatCell) }
          frame := { v.frame with text :=
            [statusLine ((data.length + ((rows.drop data.length).take 80).length : Nat)) v.rowCount] } }) := by
  have hrows : ∀ r ∈ (rows.drop data.length).take 80, r ≠ [] := fun r hm =>
    hr r (List.mem_of_mem_drop (List.mem_of_mem_take hm))
  simp only [loadRows, Conn.Query, hdb, fixedTable, batchSize]
  simp only [show ¬ ((80 : Int) < 0 ∨ ((data.length : Nat) : Int) < 0) by omega, if_false,
    Int.toNat_ofNat, show (80 : Int).toNat = 80 from rfl]
  rw [setHeader_shown columns v.table data hc ht, readRows_values _ _ hrows]
  simp only [Frame.Clear, Frame.AddText, Table.GetRowCount, statusLine, batchCall, List.nil_append,
    List.length_cons, List.length_append, List.length_map]
  have e : ∀ a b : Nat, (((a + 1 + b : Nat) : Int) - 1) = ((a + b : Nat) : Int) := by
    intro a b; push_cast; ring
  simp only [List.cons_append, e]

theorem finderPage_ne (a b : String) : finderPage ≠ a ++ "." ++ b := by
  intro h
  have hm : '.' ∈ (a ++ "." ++ b).toList := by simp [String.toList]
  rw [← h] at hm
  revert hm
  decide

theorem take_batch (rows : List (List Value)) (k : Nat) :
    rows.take (min (k * 80) rows.length) ++
        (rows.drop (min (k * 80) rows.length)).take 80 =
      rows.take (min ((k + 1) * 80) rows.length) := by
  rw [← List.take_add]
  rw [List.take_eq_take]
  simp only [Nat.min_def]
  split_ifs <;> omega

theorem content_fixed (name tableName : String) (columns : List String)
    (rows : List (List Value)) (hc : columns ≠ []) (hr : ∀ r ∈ rows, r ≠ []) :
    Experimental.content (startUI (fixedTable name columns rows)) name tableName =
      .ok (shownUI name tableName columns rows 1) := by
  have hne : ¬ (finderPage = name ++ "." ++ tableName) := finderPage_ne name tableName
  have hl := loadRows_fixed name columns rows
    { fixedTable name columns rows with log := [] ++ [countCall tableName] }
    ⟨name, tableName, NewTable, ⟨"Contents of table \"" ++ tableName ++ "\"", []⟩, rows.length⟩
    [] rfl hc hr (Or.inl ⟨rfl, rfl⟩)
  simp only [List.length_nil, Nat.cast_zero] at hl
  simp only [Experimental.content, startUI, HasPage, List.any_cons, List.any_nil, beq_iff_eq, hne,
    decide_False, Bool.or_false, Bool.false_eq_true, if_false, TermUI.conn, fixedTable,
    List.lookup, beq_self_eq_true, Conn.QueryRowScanInt]
  simp only [fixedTable, countCall] at hl
  rw [hl]
  simp only [TermUI.setConn, TermUI.AddPage, AddPage, removeFirst, hne, if_false, List.map,
    if_true, shownUI, shownView, focusTarget, topVisible, List.filter, List.getLast?, List.getLast,
    fixedTable, countCall, batchCall, NewTable, List.range_succ, List.range_zero]
  have e1 : rows.take (min (1 * 80) rows.length) = (rows.drop 0).take 80 := by
    rw [List.drop_zero, List.take_eq_take]; simp
  have e2 : ((rows.drop 0).take 80).length = min (1 * 80) rows.length := by
    simp
  simp [e1, e2]

theorem done_enter_fixed (name tableName : String) (columns : List String)
    (rows : List (List Value)) (hc : columns ≠ []) (hr : ∀ r ∈ rows, r ≠ [])
    (k : Nat) (hk : 1 ≤ k) :
    Experimental.done (shownUI name tableName columns rows k) (name ++ "." ++ tableName) .Enter =
      .ok (shownUI name tableName columns rows (k + 1)) := by
  have hne : ¬ (finderPage = name ++ "." ++ tableName) := finderPage_ne name tableName
  have hne' : (finderPage == name ++ "." ++ tableName) = false := by simpa using hne
  have hl := loadRows_fixed name columns rows
    { fixedTable name columns rows with
        log := countCall tableName ::
          (List.range k).map fun i => batchCall tableName (min (i * 80) rows.length : Nat) }
    (shownView name tableName columns rows k)
    ((rows.take (min (k * 80) rows.length)).map fun r => r.map formatCell)
    rfl hc hr (Or.inr (by rfl))
  have hlen : ((rows.take (min (k * 80) rows.length)).map fun r => r.map formatCell).length
      = min (k * 80) rows.length := by simp
  rw [hlen] at hl
  have hoff : (shownView name tableName columns rows k).table.GetRowCount - 1
      = ((min (k * 80) rows.length : Nat) : Int) := by
    simp only [shownView, Table.GetRowCount, List.length_cons, hlen]
    push_cast; ring
  simp only [Experimental.done, TermUI.view, shownUI, List.find?, hne', beq_self_eq_true,
    TermUI.conn, List.lookup]
  rw [show (shownView name tableName columns rows k).dbName = name from rfl]
  simp only [beq_self_eq_true, hoff]
  rw [hl]
  simp only [TermUI.setConn, TermUI.setView, List.map, if_true, hne, if_false, shownView,
    Table.ScrollToEnd, fixedTable, List.range_succ, List.map_append, List.cons_append]
  have e1 := take_batch rows k
  have e2 : min (k * 80) rows.length + ((rows.drop (min (k * 80) rows.length)).take 80).length
      = min ((k + 1) * 80) rows.length := by
    simp only [List.length_take, List.length_drop, Nat.min_def]
    split_ifs <;> omega
  have e3 : decide (1 < k + 1) = true := by simpa using hk
  rw [← List.map_append, e1, e2, e3]

theorem pressEnter_fixed (name tableName : String) (columns : List String)
    (rows : List (List Value)) (hc : columns ≠ []) (hr : ∀ r ∈ rows, r ≠ [])
    (n k : Nat) (hk : 1 ≤ k) :
    pressEnter (name ++ "." ++ tableName) n (shownUI name tableName columns rows k) =
      .ok (shownUI name tableName columns rows (k + n)) := by
  induction n generalizing k with
  | zero => rfl
  | succ n ih =>
    simp only [pressEnter, done_enter_fixed name tableName columns rows hc hr k hk]
    rw [ih (k + 1) (by omega)]
    congr 2
    omega

theorem afterFetches_fixed (name tableName : String) (columns : List String)
    (rows : List (List Value)) (hc : columns ≠ []) (hr : ∀ r ∈ rows, r.length = columns.length)
    (k : Nat) (hk : 1 ≤ k) :
    afterFetches (fixedTable name columns rows) tableName k =
      .ok (shownUI name tableName columns rows k) := by
  have hr' : ∀ r ∈ rows, r ≠ [] := by
    intro r hm h
    have := hr r hm
    rw [h] at this
    exact hc (List.length_eq_zero.mp this.symm)
  have hn : (fixedTable name columns rows).name = name := rfl
  simp only [afterFetches, hn, content_fixed name tableName columns rows hc hr',
    pressEnter_fixed name tableName columns rows hc hr' (k - 1) 1 (le_refl 1)]
  congr 2
  omega

theorem shownUI_view (name tableName : String) (columns : List String)
    (rows : List (List Value)) (k : Nat) :
    (shownUI name tableName columns rows k).view (name ++ "." ++ tableName) =
      some (shownView name tableName columns rows k) := by
  have hne' : (finderPage == name ++ "." ++ tableName) = false := by
    simpa using finderPage_ne name tableName
  simp [TermUI.view, shownUI, List.find?, hne']

theorem shownUI_log (name tableName : String) (columns : List String)
    (rows : List (List Value)) (k : Nat) :
    (shownUI name tableName columns rows k).log name =
      some (countCall tableName ::
        (List.range k).map fun i => batchCall tableName (min (i * 80) rows.length : Nat)) := by
  simp [TermUI.log, TermUI.conn, shownUI, List.lookup]

theorem shownView_loaded (name tableName : String) (columns : List String)
    (rows : List (List Value)) (k : Nat) :
    (shownView name tableName columns rows k).loaded = (min (k * 80) rows.length : Nat) := by
  simp only [View.loaded, shownView, Table.GetRowCount, List.length_cons, List.length_map,
    List.length_take]
  have : min (min (k * 80) rows.length) rows.length = min (k * 80) rows.length := by
    simp
  rw [this]
  push_cast; ring

/-- C3: over a fixed table of `R` rows with at least one column, after `k ≥ 1` batch
fetches (the first by opening the table, each later one by Enter, asking for 80 rows
from the offset equal to the rows loaded so far) the view shows exactly
`min (k * 80) R` loaded rows of `R`, and once that count is `R` a further Enter leaves
it unchanged. -/
theorem loaded_after_fetches (name tableName : String) (columns : List String)
    (rows : List (List Value)) (hc : columns ≠ [])
    (hr : ∀ r ∈ rows, r.length = columns.length) (k : Nat) (hk : 1 ≤ k) :
    ∃ (t : TermUI) (v : View),
      afterFetches (fixedTable name columns rows) tableName k = .ok t ∧
      t.view (name ++ "." ++ tableName) = some v ∧
      v.loaded = (min (k * 80) rows.length : Nat) ∧
      v.rowCount = rows.length ∧
      v.frame.text = [statusLine (min (k * 80) rows.length : Nat) rows.length] ∧
      t.log name = some (countCall tableName ::
        (List.range k).map fun i => batchCall tableName (min (i * 80) rows.length : Nat)) ∧
      (v.loaded = rows.length →
        ∃ (t' : TermUI) (v' : View),
          Experimental.done t (name ++ "." ++ tableName) .Enter = .ok t' ∧
          t'.view (name ++ "." ++ tableName) = some v' ∧
          v'.loaded = v.loaded) := by
  refine ⟨shownUI name tableName columns rows k, shownView name tableName columns rows k,
    afterFetches_fixed name tableName columns rows hc hr k hk,
    shownUI_view name tableName columns rows k,
    shownView_loaded name tableName columns rows k, rfl, rfl,
    shownUI_log name tableName columns rows k, ?_⟩
  intro hend
  have hr' : ∀ r ∈ rows, r ≠ [] := by
    intro r hm h
    have := hr r hm
    rw [h] at this
    exact hc (List.length_eq_zero.mp this.symm)
  refine ⟨shownUI name tableName columns rows (k + 1),
    shownView name tableName columns rows (k + 1),
    done_enter_fixed name tableName columns rows hc hr' k hk,
    shownUI_view name tableName columns rows (k + 1), ?_⟩
  rw [shownView_loaded] at hend ⊢
  rw [shownView_loaded]
  have h1 : min (k * 80) rows.length = rows.length := by exact_mod_cast hend
  have h2 : min ((k + 1) * 80) rows.length = min (k * 80) rows.length := by
    simp only [Nat.min_def] at h1 ⊢
    split_ifs at h1 ⊢ <;> omega
  rw [h2]

theorem loaded_after_fetches_witness :
    (∃ (t : TermUI) (v : View), afterFetches users150 "users" 1 = .ok t ∧
      t.view "generic.users" = some v ∧ v.loaded = 80 ∧ v.rowCount = 150 ∧
      v.frame.text = [statusLine 80 150]) ∧
    (∃ (t : TermUI) (v : View), afterFetches users150 "users" 2 = .ok t ∧
      t.view "generic.users" = some v ∧ v.loaded = 150 ∧ v.rowCount = 150 ∧
      v.frame.text = [statusLine 150 150]) ∧
    (∃ (t : TermUI) (v : View), afterFetches users150 "users" 3 = .ok t ∧
      t.view "generic.users" = some v ∧ v.loaded = 150 ∧ v.rowCount = 150 ∧
      v.frame.text = [statusLine 150 150]) := by
  have hlen : ((List.range 150).map fun i : Nat => [Value.int64 i]).length = 150 := by simp
  have hr : ∀ r ∈ (List.range 150).map fun i : Nat => [Value.int64 i],
      r.length = ["id"].length := by
    intro r hm
    obtain ⟨i, -, rfl⟩ := List.mem_map.mp hm
    rfl
  refine ⟨?_, ?_, ?_⟩
  · obtain ⟨t, v, h1, h2, h3, h4, h5, -, -⟩ := loaded_after_fetches "generic" "users" ["id"]
      ((List.range 150).map fun i : Nat => [Value.int64 i]) (by decide) hr 1 (by decide)
    rw [hlen] at h3 h4 h5
    exact ⟨t, v, h1, h2, h3, h4, h5⟩
  · obtain ⟨t, v, h1, h2, h3, h4, h5, -, -⟩ := loaded_after_fetches "generic" "users" ["id"]
      ((List.range 150).map fun i : Nat => [Value.int64 i]) (by decide) hr 2 (by decide)
    rw [hlen] at h3 h4 h5
    exact ⟨t, v, h1, h2, h3, h4, h5⟩
  · obtain ⟨t, v, h1, h2, h3, h4, h5, -, -⟩ := loaded_after_fetches "generic" "users" ["id"]
      ((List.range 150).map fun i : Nat => [Value.int64 i]) (by decide) hr 3 (by decide)
    rw [hlen] at h3 h4 h5
    exact ⟨t, v, h1, h2, h3, h4, h5⟩

example : (statusLine 80 150).Text = "Loaded 80 of 150 rows - press Enter to load more" := by decide
example : (statusLine 150 150).Text = "Loaded 150 of 150 rows" := by decide

/-- C4, counterexample: on a table of one row the view is complete after opening (1 of
1 rows loaded), and Enter then sends one more row query, at offset 1, to the
database. -/
theorem enter_at_end_sends_query :
    ∃ (t t' : TermUI) (v : View),
      afterFetches oneRow "users" 1 = .ok t ∧
      t.view "generic.users" = some v ∧ v.loaded = 1 ∧ v.rowCount = 1 ∧
      t.log "generic" = some [countCall "users", batchCall "users" 0] ∧
      Experimental.done t "generic.users" .Enter = .ok t' ∧
      t'.log "generic" = some [countCall "users", batchCall "users" 0, batchCall "users" 1] := by
  have hr : ∀ r ∈ [[Value.int64 7]], r.length = ["id"].length := by simp
  have hr' : ∀ r ∈ [[Value.int64 7]], r ≠ [] := by simp
  refine ⟨shownUI "generic" "users" ["id"] [[Value.int64 7]] 1,
    shownUI "generic" "users" ["id"] [[Value.int64 7]] 2,
    shownView "generic" "users" ["id"] [[Value.int64 7]] 1,
    afterFetches_fixed "generic" "users" ["id"] [[Value.int64 7]] (by decide) hr 1 (by decide),
    shownUI_view "generic" "users" ["id"] [[Value.int64 7]] 1, by decide, rfl, by decide,
    done_enter_fixed "generic" "users" ["id"] [[Value.int64 7]] (by decide) hr' 1 (by decide),
    by decide⟩

theorem view_setView (t : TermUI) (pageName : String) (v v' : View)
    (h : t.view pageName = some v) :
    (t.setView pageName v').view pageName = some v' := by
  obtain ⟨connections, pages, focus, finderFocus⟩ := t
  simp only [TermUI.view, TermUI.setView] at h ⊢
  induction pages with
  | nil => simp at h
  | cons p ps ih =>
    by_cases hp : p.Name = pageName
    · have hb : (p.Name == pageName) = true := by simpa using hp
      simp [List.find?, hp]
    · have hb : (p.Name == pageName) = false := by simpa using hp
      simp only [List.find?, hb] at h
      simp only [List.map_cons, if_neg hp, List.find?, hb]
      exact ih h

theorem termui_enter (tui : TermUI) (pageName : String) :
    (Termui.done tui pageName .Enter).connections = tui.connections ∧
    (∀ name, (Termui.done tui pageName .Enter).log name = tui.log name) ∧
    (∀ v, tui.view pageName = some v →
      (Termui.done tui pageName .Enter).view pageName
        = some { v with table := v.table.ScrollToEnd }) := by
  refine ⟨?_, ?_, ?_⟩
  · simp only [Termui.done]
    cases tui.view pageName <;> rfl
  · intro name
    simp only [Termui.done]
    cases tui.view pageName <;> rfl
  · intro v hv
    simp only [Termui.done, hv]
    exact view_setView tui pageName v _ hv

theorem enter_at_end_fixed (name tableName : String) (columns : List String)
    (rows : List (List Value)) (hc : columns ≠ [])
    (hr : ∀ r ∈ rows, r.length = columns.length) (k : Nat) (hk : 1 ≤ k)
    (t : TermUI) (v : View)
    (ht : afterFetches (fixedTable name columns rows) tableName k = .ok t)
    (hv : t.view (name ++ "." ++ tableName) = some v)
    (hend : v.loaded = v.rowCount) :
    ∃ (t' : TermUI) (log : List QueryCall),
      Experimental.done t (name ++ "." ++ tableName) .Enter = .ok t' ∧
      t.log name = some log ∧
      t'.log name = some (log ++ [batchCall tableName rows.length]) ∧
      t'.view (name ++ "." ++ tableName) = some { v with table := v.table.ScrollToEnd } ∧
      pageItems t'.pages =
        [(finderPage, .finder),
         (name ++ "." ++ tableName, .content { v with table := v.table.ScrollToEnd })] := by
  have hr' : ∀ r ∈ rows, r ≠ [] := by
    intro r hm h
    have := hr r hm
    rw [h] at this
    exact hc (List.length_eq_zero.mp this.symm)
  rw [afterFetches_fixed name tableName columns rows hc hr k hk] at ht
  cases ht
  rw [shownUI_view] at hv
  cases hv
  rw [shownView_loaded] at hend
  have h1 : min (k * 80) rows.length = rows.length := by
    have : (shownView name tableName columns rows k).rowCount = rows.length := rfl
    rw [this] at hend
    exact_mod_cast hend
  have h2 : min ((k + 1) * 80) rows.length = min (k * 80) rows.length := by
    simp only [Nat.min_def] at h1 ⊢
    split_ifs at h1 ⊢ <;> omega
  have hview : shownView name tableName columns rows (k + 1) =
      { shownView name tableName columns rows k with
        table := (shownView name tableName columns rows k).table.ScrollToEnd } := by
    simp only [shownView, h2, Table.ScrollToEnd]
    simp
    omega
  refine ⟨shownUI name tableName columns rows (k + 1), _,
    done_enter_fixed name tableName columns rows hc hr' k hk,
    shownUI_log name tableName columns rows k, ?_, ?_, ?_⟩
  · rw [shownUI_log, List.range_succ, List.map_append]
    simp only [List.map, h1, List.cons_append]
  · rw [shownUI_view, hview]
  · simp only [pageItems, shownUI, List.map, hview]

/-- C4, amended: when the loaded count of a table view equals the total row count, the
Enter handler of `experimental/v2`, over a table with at least one column whose rows do
not change, sends exactly one more row query (80 rows from the offset equal to the
total), which brings no rows; the cells, the status line and both counts of the view
stay as they were, the table only scrolls to its end, and the pages stay the same. The
Enter handler of `internal/termui` sends no query in any state: the connections and
their logs stay as they were and the view only scrolls to its end. -/
theorem enter_at_end_keeps_view (name tableName : String) (columns : List String)
    (rows : List (List Value)) (hc : columns ≠ [])
    (hr : ∀ r ∈ rows, r.length = columns.length) (k : Nat) (hk : 1 ≤ k)
    (t : TermUI) (v : View)
    (ht : afterFetches (fixedTable name columns rows) tableName k = .ok t)
    (hv : t.view (name ++ "." ++ tableName) = some v)
    (hend : v.loaded = v.rowCount) :
    (∃ (t' : TermUI) (log : List QueryCall),
      Experimental.done t (name ++ "." ++ tableName) .Enter = .ok t' ∧
      t.log name = some log ∧
      t'.log name = some (log ++ [batchCall tableName rows.length]) ∧
      t'.view (name ++ "." ++ tableName) = some { v with table := v.table.ScrollToEnd } ∧
      pageItems t'.pages =
        [(finderPage, .finder),
         (name ++ "." ++ tableName, .content { v with table := v.table.ScrollToEnd })]) ∧
    (∀ (tui : TermUI) (pageName : String),
      (Termui.done tui pageName .Enter).connections = tui.connections ∧
      (∀ conn, (Termui.done tui pageName .Enter).log conn = tui.log conn) ∧
      (∀ w, tui.view pageName = some w →
        (Termui.done tui pageName .Enter).view pageName
          = some { w with table := w.table.ScrollToEnd })) :=
  ⟨enter_at_end_fixed name tableName columns rows hc hr k hk t v ht hv hend,
    fun tui pageName => termui_enter tui pageName⟩

theorem enter_at_end_keeps_view_witness :
    (∃ (t' : TermUI) (log : List QueryCall),
      Experimental.done (shownUI "generic" "users" ["id"] [[Value.int64 7]] 1)
        ("generic" ++ "." ++ "users") .Enter = .ok t' ∧
      (shownUI "generic" "users" ["id"] [[Value.int64 7]] 1).log "generic" = some log ∧
      t'.log "generic" = some (log ++ [batchCall "users" [[Value.int64 7]].length]) ∧
      t'.view ("generic" ++ "." ++ "users") = some
        { shownView "generic" "users" ["id"] [[Value.int64 7]] 1 with
          table := (shownView "generic" "users" ["id"] [[Value.int64 7]] 1).table.ScrollToEnd } ∧
      pageItems t'.pages =
        [(finderPage, .finder),
         ("generic" ++ "." ++ "users", .content
          { shownView "generic" "users" ["id"] [[Value.int64 7]] 1 with
            table :=
              (shownView "generic" "users" ["id"] [[Value.int64 7]] 1).table.ScrollToEnd })]) ∧
    (Termui.done usersOpened "generic.public.users" .Enter).connections
      = usersOpened.connections :=
  ⟨(enter_at_end_keeps_view "generic" "users" ["id"] [[Value.int64 7]] (by decide) (by simp) 1
      (by decide) (shownUI "generic" "users" ["id"] [[Value.int64 7]] 1)
      (shownView "generic" "users" ["id"] [[Value.int64 7]] 1)
      (afterFetches_fixed "generic" "users" ["id"] [[Value.int64 7]] (by decide) (by simp) 1
        (by decide))
      (shownUI_view "generic" "users" ["id"] [[Value.int64 7]] 1) (by decide)).1,
   ((enter_at_end_keeps_view "generic" "users" ["id"] [[Value.int64 7]] (by decide) (by simp) 1
      (by decide) (shownUI "generic" "users" ["id"] [[Value.int64 7]] 1)
      (shownView "generic" "users" ["id"] [[Value.int64 7]] 1)
      (afterFetches_fixed "generic" "users" ["id"] [[Value.int64 7]] (by decide) (by simp) 1
        (by decide))
      (shownUI_view "generic" "users" ["id"] [[Value.int64 7]] 1) (by decide)).2
      usersOpened "generic.public.users").1⟩

/-! ### The page cache -/

theorem HasPage_SwitchToPage (pages : List (Page Item)) (shown name : String) :
    HasPage (SwitchToPage pages shown) name = HasPage pages name := by
  simp [HasPage, SwitchToPage, List.any_map, Function.comp_def]

theorem HasPage_AddPage (pages : List (Page Item)) (name : String) (item : Item) (visible : Bool) :
    HasPage (AddPage pages name item visible) name = true := by
  simp [HasPage, AddPage]

theorem pageItems_SwitchToPage (pages : List (Page Item)) (shown : String) :
    pageItems (SwitchToPage pages shown) = pageItems pages := by
  simp [pageItems, SwitchToPage, List.map_map, Function.comp_def]

theorem content_HasPage (tui t1 : TermUI) (dbName schema table : String)
    (h : Termui.content tui dbName schema table = .ok t1) :
    HasPage t1.pages (dbName ++ "." ++ schema ++ "." ++ table) = true := by
  simp only [Termui.content] at h
  split_ifs at h with hp
  · cases h
    simp only [TermUI.SwitchToPage, HasPage_SwitchToPage]
    exact hp
  · cases hc : TermUI.conn { tui with finderFocus := tui.focus } dbName with
    | none => simp [hc] at h
    | some c =>
      simp only [hc, Conn.QueryRowScanInt] at h
      cases hq : c.answerInt ⟨"select count(*) from " ++ table, []⟩ with
      | error e => simp [hq] at h
      | ok n =>
        simp only [hq] at h
        cases h
        simp only [TermUI.AddPage, HasPage_AddPage]

theorem experimental_content_HasPage (t t1 : TermUI) (dbName tableName : String)
    (h : Experimental.content t dbName tableName = .ok t1) :
    HasPage t1.pages (dbName ++ "." ++ tableName) = true := by
  simp only [Experimental.content] at h
  split_ifs at h with hp
  · cases h
    simp only [TermUI.SwitchToPage, HasPage_SwitchToPage]
    exact hp
  · cases hc : t.conn dbName with
    | none => simp [hc] at h
    | some c =>
      simp only [hc, Conn.QueryRowScanInt] at h
      cases hq : c.answerInt ⟨"select count(*) from " ++ tableName, []⟩ with
      | error e => simp [hq] at h
      | ok n =>
        simp only [hq] at h
        split at h
        · simp at h
        · cases h
          simp only [TermUI.AddPage, TermUI.setConn, HasPage_AddPage]

theorem experimental_content_again (t t1 : TermUI) (dbName tableName : String)
    (h : Experimental.content t dbName tableName = .ok t1) :
    Experimental.content t1 dbName tableName =
      .ok (t1.SwitchToPage (dbName ++ "." ++ tableName)) := by
  simp only [Experimental.content, experimental_content_HasPage t t1 dbName tableName h, if_true]

theorem content_finderFocus (tui t1 : TermUI) (dbName schema table : String)
    (h : Termui.content tui dbName schema table = .ok t1) :
    t1.finderFocus = tui.focus := by
  simp only [Termui.content] at h
  split_ifs at h with hp
  · cases h
    rfl
  · cases hc : TermUI.conn { tui with finderFocus := tui.focus } dbName with
    | none => simp [hc] at h
    | some c =>
      simp only [hc, Conn.QueryRowScanInt] at h
      cases hq : c.answerInt ⟨"select count(*) from " ++ table, []⟩ with
      | error e => simp [hq] at h
      | ok n =>
        simp only [hq] at h
        cases h
        rfl

theorem content_after_escape (tui t1 : TermUI) (dbName schema table : String) (w : Widget)
    (hf : tui.focus = some w)
    (h : Termui.content tui dbName schema table = .ok t1) :
    (Termui.done t1 (dbName ++ "." ++ schema ++ "." ++ table) .Escape).focus = tui.focus ∧
    (Termui.done t1 (dbName ++ "." ++ schema ++ "." ++ table) .Escape).finderFocus
      = t1.finderFocus ∧
    Termui.content (Termui.done t1 (dbName ++ "." ++ schema ++ "." ++ table) .Escape)
        dbName schema table =
      .ok ((Termui.done t1 (dbName ++ "." ++ schema ++ "." ++ table) .Escape).SwitchToPage
        (dbName ++ "." ++ schema ++ "." ++ table)) := by
  have hp := content_HasPage tui t1 dbName schema table h
  have hff : t1.finderFocus = some w := by
    rw [content_finderFocus tui t1 dbName schema table h, hf]
  have hE : Termui.done t1 (dbName ++ "." ++ schema ++ "." ++ table) .Escape =
      { t1.SwitchToPage finderPage with focus := some w } := by
    simp [Termui.done, TermUI.SwitchToPage, hff]
  rw [hE]
  refine ⟨hf.symm, ?_, ?_⟩
  · rfl
  · have hp' : HasPage (SwitchToPage t1.pages finderPage)
        (dbName ++ "." ++ schema ++ "." ++ table) = true := by
      rw [HasPage_SwitchToPage]; exact hp
    simp only [Termui.content, TermUI.SwitchToPage, hp', if_true, hff]

/-- C5: opening a table view is idempotent. After `content` has returned for a
connection name, schema and table, the page is there under the key of the three names,
and a second call with the same arguments finds it, leaves the connections and their
query logs as they were (no count, no row fetch), adds or replaces no page, and only
switches to the existing page, besides storing the focus of the moment in `finderFocus`
as `content` of `internal/termui` does on every call. When the user has left the page
with Escape and opens the table again from the list, that focus is the one already
stored, so the second call is exactly the switch. `content` of `experimental/v2` does
the switch alone. -/
theorem content_again_only_switches (tui t1 : TermUI) (dbName schema table : String)
    (h : Termui.content tui dbName schema table = .ok t1) :
    HasPage t1.pages (dbName ++ "." ++ schema ++ "." ++ table) = true ∧
    (∃ t2 : TermUI,
      Termui.content t1 dbName schema table = .ok t2 ∧
      t2 = { t1 with finderFocus := t1.focus }.SwitchToPage
        (dbName ++ "." ++ schema ++ "." ++ table) ∧
      t2.connections = t1.connections ∧
      (∀ name, t2.log name = t1.log name) ∧
      pageItems t2.pages = pageItems t1.pages ∧
      t2.pages = SwitchToPage t1.pages (dbName ++ "." ++ schema ++ "." ++ table)) ∧
    (∀ w : Widget, tui.focus = some w →
      (Termui.done t1 (dbName ++ "." ++ schema ++ "." ++ table) .Escape).focus = tui.focus ∧
      (Termui.done t1 (dbName ++ "." ++ schema ++ "." ++ table) .Escape).finderFocus
        = t1.finderFocus ∧
      Termui.content (Termui.done t1 (dbName ++ "." ++ schema ++ "." ++ table) .Escape)
          dbName schema table =
        .ok ((Termui.done t1 (dbName ++ "." ++ schema ++ "." ++ table) .Escape).SwitchToPage
          (dbName ++ "." ++ schema ++ "." ++ table))) ∧
    (∀ (t t' : TermUI) (tableName : String),
      Experimental.content t dbName tableName = .ok t' →
      Experimental.content t' dbName tableName =
        .ok (t'.SwitchToPage (dbName ++ "." ++ tableName))) := by
  have hp := content_HasPage tui t1 dbName schema table h
  have h2 : Termui.content t1 dbName schema table =
      .ok ({ t1 with finderFocus := t1.focus }.SwitchToPage
        (dbName ++ "." ++ schema ++ "." ++ table)) := by
    simp only [Termui.content, hp, if_true]
  exact ⟨hp, ⟨_, h2, rfl, rfl, fun _ => rfl, pageItems_SwitchToPage _ _, rfl⟩,
    fun w hw => content_after_escape tui t1 dbName schema table w hw h,
    fun t t' tableName ht => experimental_content_again t t' dbName tableName ht⟩

theorem content_again_only_switches_witness :
    (∃ t2 : TermUI,
      Termui.content usersOpened "generic" "public" "users" = .ok t2 ∧
      t2 = { usersOpened with finderFocus := usersOpened.focus }.SwitchToPage
        ("generic" ++ "." ++ "public" ++ "." ++ "users") ∧
      t2.connections = usersOpened.connections ∧
      (∀ name, t2.log name = usersOpened.log name) ∧
      pageItems t2.pages = pageItems usersOpened.pages ∧
      t2.pages = SwitchToPage usersOpened.pages
        ("generic" ++ "." ++ "public" ++ "." ++ "users")) ∧
    ((Termui.done usersOpened ("generic" ++ "." ++ "public" ++ "." ++ "users") .Escape).focus
        = (browsing oneRow).focus ∧
      (Termui.done usersOpened
          ("generic" ++ "." ++ "public" ++ "." ++ "users") .Escape).finderFocus
        = usersOpened.finderFocus ∧
      Termui.content
          (Termui.done usersOpened ("generic" ++ "." ++ "public" ++ "." ++ "users") .Escape)
          "generic" "public" "users" =
        .ok ((Termui.done usersOpened
            ("generic" ++ "." ++ "public" ++ "." ++ "users") .Escape).SwitchToPage
          ("generic" ++ "." ++ "public" ++ "." ++ "users"))) :=
  ⟨(content_again_only_switches (browsing oneRow) usersOpened "generic" "public" "users"
      rfl).2.1,
   (content_again_only_switches (browsing oneRow) usersOpened "generic" "public" "users"
      rfl).2.2.1 .schemas rfl⟩

/-! ### Reading a formatted UUID back -/

set_option maxRecDepth 100000 in
theorem hexValue_digits : ∀ v : Byte,
    hexValue (Nat.digitChar (v.val / 16)) * 16 + hexValue (Nat.digitChar (v.val % 16))
      = v.val := by
  decide

theorem decodeHex_lowerHex (bs : List Byte) :
    decodeHex (lowerHex bs) = bs.map fun b => b.val := by
  induction bs with
  | nil => rfl
  | cons b bs ih =>
    have h : lowerHex (b :: bs) =
        Nat.digitChar (b.val / 16) :: Nat.digitChar (b.val % 16) :: lowerHex bs := by
      simp [lowerHex, List.flatMap_cons]
    rw [h, decodeHex, ih, hexValue_digits]
    rfl

theorem filter_dash_lowerHex_part (part : List Char) (bs : List Byte)
    (h : ∀ c ∈ part, c ∈ lowerHex bs) :
    part.filter (fun c => c != '-') = part := by
  rw [List.filter_eq_self]
  intro c hc
  have hm := mem_lowerHex bs c (h c hc)
  have hne : c ≠ '-' := by
    rintro rfl
    revert hm
    decide
  simpa using hne

theorem regroup (L : List Char) (hL : L.length = 32) :
    L.take 8 ++ ((L.drop 8).take 4 ++ ((L.drop 12).take 4 ++
      ((L.drop 16).take 4 ++ (L.drop 20).take 12))) = L := by
  have e5 : (L.drop 20).take 12 = L.drop 20 := by
    apply List.take_of_length_le
    simp [hL]
  have e4 : (L.drop 16).take 4 ++ L.drop 20 = L.drop 16 := by
    have := List.take_append_drop 4 (L.drop 16)
    rwa [List.drop_drop] at this
  have e3 : (L.drop 12).take 4 ++ L.drop 16 = L.drop 12 := by
    have := List.take_append_drop 4 (L.drop 12)
    rwa [List.drop_drop] at this
  have e2 : (L.drop 8).take 4 ++ L.drop 12 = L.drop 8 := by
    have := List.take_append_drop 4 (L.drop 8)
    rwa [List.drop_drop] at this
  rw [e5, e4, e3, e2, List.take_append_drop]

theorem decodeUUID_formatUUID (b : Bytes16) :
    decodeUUID (formatUUID b) = b.val.map fun x => x.val := by
  have hlen : (lowerHex b.val).length = 32 := by rw [lowerHex_length, b.property]
  have hfmt := formatUUID_text b
  have hp : ∀ (n m : Nat), ∀ c ∈ ((lowerHex b.val).drop n).take m, c ∈ lowerHex b.val :=
    fun n m c hc => List.mem_of_mem_drop (List.mem_of_mem_take hc)
  have hp0 : ∀ c ∈ (lowerHex b.val).take 8, c ∈ lowerHex b.val :=
    fun c hc => List.mem_of_mem_take hc
  rw [decodeUUID, hfmt]
  simp only [String.toList, List.filter_append, List.filter_cons,
    filter_dash_lowerHex_part _ b.val hp0, filter_dash_lowerHex_part _ b.val (hp 8 4),
    filter_dash_lowerHex_part _ b.val (hp 12 4), filter_dash_lowerHex_part _ b.val (hp 16 4),
    filter_dash_lowerHex_part _ b.val (hp 20 12)]
  simp only [show (('-' : Char) != '-') = false by decide, Bool.false_eq_true, if_false]
  simp only [List.append_assoc]
  rw [regroup _ hlen, decodeHex_lowerHex]

/-- C15: `formatUUID` loses no information: removing the `-` characters from
`formatUUID b` and decoding the remaining characters as hexadecimal gives back the
sixteen bytes of `b`, and two arrays with the same formatted text are equal. -/
theorem formatUUID_injective :
    (∀ b : Bytes16, decodeUUID (formatUUID b) = b.val.map fun x => x.val) ∧
    (∀ a b : Bytes16, formatUUID a = formatUUID b → a = b) := by
  refine ⟨decodeUUID_formatUUID, ?_⟩
  intro a b h
  have h1 := decodeUUID_formatUUID a
  rw [h, decodeUUID_formatUUID b] at h1
  apply Subtype.ext
  have hinj : Function.Injective (fun x : Byte => x.val) := fun x y hxy => Fin.ext hxy
  exact (List.map_injective_iff.mpr hinj h1).symm

theorem formatUUID_injective_witness :
    decodeUUID (formatUUID sampleUUID) = sampleUUID.val.map (fun x => x.val) ∧
    (formatUUID sampleUUID = formatUUID zeroUUID → sampleUUID = zeroUUID) ∧
    formatUUID sampleUUID ≠ formatUUID zeroUUID :=
  ⟨formatUUID_injective.1 sampleUUID, formatUUID_injective.2 sampleUUID zeroUUID, by decide⟩

/-! ### Page keys -/

theorem split_at_first {α : Type} (c : α) (l1 l2 r1 r2 : List α)
    (h1 : c ∉ l1) (h2 : c ∉ l2) (h : l1 ++ c :: r1 = l2 ++ c :: r2) :
    l1 = l2 ∧ r1 = r2 := by
  induction l1 generalizing l2 with
  | nil =>
    cases l2 with
    | nil => simpa using h
    | cons b l2 =>
      simp only [List.nil_append, List.cons_append, List.cons.injEq] at h
      exact absurd (h.1 ▸ List.mem_cons_self _ _) h2
  | cons a l1 ih =>
    cases l2 with
    | nil =>
      simp only [List.nil_append, List.cons_append, List.cons.injEq] at h
      exact absurd (h.1 ▸ List.mem_cons_self _ _) h1
    | cons b l2 =>
      simp only [List.cons_append, List.cons.injEq] at h
      obtain ⟨e1, e2⟩ := ih l2 (fun hm => h1 (List.mem_cons_of_mem _ hm))
        (fun hm => h2 (List.mem_cons_of_mem _ hm)) h.2
      exact ⟨by rw [h.1, e1], e2⟩

theorem pageKey_toList (dbName schema table : String) :
    (pageKey dbName schema table).toList =
      dbName.toList ++ '.' :: (schema.toList ++ '.' :: table.toList) := by
  simp [pageKey, String.toList]

theorem pageKey_eq (d1 s1 t1 d2 s2 t2 : String)
    (hd1 : '.' ∉ d1.toList) (hs1 : '.' ∉ s1.toList)
    (hd2 : '.' ∉ d2.toList) (hs2 : '.' ∉ s2.toList)
    (h : pageKey d1 s1 t1 = pageKey d2 s2 t2) : d1 = d2 ∧ s1 = s2 ∧ t1 = t2 := by
  have hl := congrArg String.toList h
  rw [pageKey_toList, pageKey_toList] at hl
  obtain ⟨e1, e2⟩ := split_at_first '.' _ _ _ _ hd1 hd2 hl
  obtain ⟨e3, e4⟩ := split_at_first '.' _ _ _ _ hs1 hs2 e2
  exact ⟨String.ext e1, String.ext e3, String.ext e4⟩

theorem content_switches_on_key (tui : TermUI) (dbName schema table : String)
    (h : HasPage tui.pages (pageKey dbName schema table) = true) :
    Termui.content tui dbName schema table =
      .ok ({ tui with finderFocus := tui.focus }.SwitchToPage (pageKey dbName schema table)) := by
  simp only [pageKey] at h
  simp only [Termui.content, h, if_true, pageKey]

/-- C11, counterexample: the triples (`a.b`, `c`, `users`) and (`a`, `b.c`, `users`)
differ and have the same page key `a.b.c.users`; after the first is opened, `content`
for the second finds that page, sends no count query over connection `a` and shows the
view of the first. -/
theorem pageKey_collision :
    ("a.b", "c", "users") ≠ ("a", "b.c", "users") ∧
    pageKey "a.b" "c" "users" = pageKey "a" "b.c" "users" ∧
    ∃ t1 t2 : TermUI,
      Termui.content browsingTwo "a.b" "c" "users" = .ok t1 ∧
      Termui.content t1 "a" "b.c" "users" = .ok t2 ∧
      t1.log "a" = some [] ∧ t2.log "a" = some [] ∧
      pageItems t2.pages = pageItems t1.pages ∧
      t2.focus = some (.contentTable (pageKey "a.b" "c" "users")) := by
  refine ⟨by decide, by decide, _, _, rfl, rfl, ?_, ?_, ?_, ?_⟩ <;> decide

theorem HasPage_removeFirst_ne (pages : List (Page Item)) (name other : String)
    (hne : name ≠ other) :
    HasPage (removeFirst name pages) other = HasPage pages other := by
  induction pages with
  | nil => rfl
  | cons p ps ih =>
    simp only [removeFirst]
    split_ifs with hp
    · have : (p.Name == other) = false := by
        rw [hp]; simpa using hne
      simp [HasPage, this]
    · simp only [HasPage, List.any_cons] at ih ⊢
      rw [ih]

theorem HasPage_AddPage_ne (pages : List (Page Item)) (name other : String) (item : Item)
    (visible : Bool) (hne : name ≠ other) :
    HasPage (AddPage pages name item visible) other = HasPage pages other := by
  have h := HasPage_removeFirst_ne pages name other hne
  have hn : (name == other) = false := by simpa using hne
  simp only [HasPage] at h
  simp only [AddPage, HasPage, List.any_append, h, List.any_cons, List.any_nil, hn,
    Bool.or_false]

theorem content_keeps_other_keys (tui t' : TermUI) (dbName schema table other : String)
    (hne : pageKey dbName schema table ≠ other)
    (h : Termui.content tui dbName schema table = .ok t') :
    HasPage t'.pages other = HasPage tui.pages other := by
  simp only [pageKey] at hne
  simp only [Termui.content] at h
  split_ifs at h with hp
  · cases h
    simp only [TermUI.SwitchToPage, HasPage_SwitchToPage]
  · cases hc : TermUI.conn { tui with finderFocus := tui.focus } dbName with
    | none => simp [hc] at h
    | some c =>
      simp only [hc, Conn.QueryRowScanInt] at h
      cases hq : c.answerInt ⟨"select count(*) from " ++ table, []⟩ with
      | error e => simp [hq] at h
      | ok n =>
        simp only [hq] at h
        cases h
        simp only [TermUI.AddPage, TermUI.setConn, HasPage_AddPage_ne _ _ _ _ _ hne]

/-- C11, amended: for two triples (connection name, schema name, table name) whose
connection names and schema names contain no `.` and that differ in at least one
component, the keys `dbName + "." + schema + "." + table` are different; opening the
first puts a page under its own key and leaves the presence of a page under the key of
the second as it was, so the two never share one cached view. -/
theorem pageKey_injective (d1 s1 t1 d2 s2 t2 : String)
    (hd1 : '.' ∉ d1.toList) (hs1 : '.' ∉ s1.toList)
    (hd2 : '.' ∉ d2.toList) (hs2 : '.' ∉ s2.toList)
    (hne : (d1, s1, t1) ≠ (d2, s2, t2)) :
    pageKey d1 s1 t1 ≠ pageKey d2 s2 t2 ∧
    (∀ tui t' : TermUI, Termui.content tui d1 s1 t1 = .ok t' →
      HasPage t'.pages (pageKey d1 s1 t1) = true ∧
      HasPage t'.pages (pageKey d2 s2 t2) = HasPage tui.pages (pageKey d2 s2 t2)) := by
  have hk : pageKey d1 s1 t1 ≠ pageKey d2 s2 t2 := by
    intro h
    obtain ⟨e1, e2, e3⟩ := pageKey_eq d1 s1 t1 d2 s2 t2 hd1 hs1 hd2 hs2 h
    exact hne (by rw [e1, e2, e3])
  refine ⟨hk, fun tui t' h => ⟨?_, content_keeps_other_keys tui t' d1 s1 t1 _ hk h⟩⟩
  exact content_HasPage tui t' d1 s1 t1 h

theorem pageKey_injective_witness :
    pageKey "generic" "public" "users" ≠ pageKey "generic" "public" "orders" :=
  (pageKey_injective "generic" "public" "users" "generic" "public" "orders"
    (by decide) (by decide) (by decide) (by decide) (by decide)).1

/-! ### Successive loads of one view -/

/-- C12: over a fixed table with at least one column, a load by Enter after `k ≥ 1`
fetches only appends: the cells before the load are the header and the rows loaded so
far, the cells after it are those same cells followed by the newly fetched rows in
fetch order, the loaded count does not decrease, and before and after the load it is at
most the total row count read by the count query. -/
theorem loads_only_append (name tableName : String) (columns : List String)
    (rows : List (List Value)) (hc : columns ≠ [])
    (hr : ∀ r ∈ rows, r.length = columns.length) (k : Nat) (hk : 1 ≤ k) :
    ∃ (t t' : TermUI) (v v' : View),
      afterFetches (fixedTable name columns rows) tableName k = .ok t ∧
      t.view (name ++ "." ++ tableName) = some v ∧
      Experimental.done t (name ++ "." ++ tableName) .Enter = .ok t' ∧
      t'.view (name ++ "." ++ tableName) = some v' ∧
      v.table.cells = headerCells columns ::
        (rows.take v.loaded.toNat).map (fun r => r.map formatCell) ∧
      v'.table.cells = v.table.cells ++
        ((rows.drop v.loaded.toNat).take 80).map (fun r => r.map formatCell) ∧
      v.loaded ≤ v'.loaded ∧
      v.loaded ≤ v.rowCount ∧ v'.loaded ≤ v'.rowCount ∧
      v.rowCount = rows.length ∧ v'.rowCount = rows.length := by
  have hr' : ∀ r ∈ rows, r ≠ [] := by
    intro r hm h
    have := hr r hm
    rw [h] at this
    exact hc (List.length_eq_zero.mp this.symm)
  have hl := shownView_loaded name tableName columns rows k
  have hl' := shownView_loaded name tableName columns rows (k + 1)
  have hn : (shownView name tableName columns rows k).loaded.toNat
      = min (k * 80) rows.length := by
    rw [hl]; exact Int.toNat_ofNat _
  refine ⟨shownUI name tableName columns rows k, shownUI name tableName columns rows (k + 1),
    shownView name tableName columns rows k, shownView name tableName columns rows (k + 1),
    afterFetches_fixed name tableName columns rows hc hr k hk,
    shownUI_view name tableName columns rows k,
    done_enter_fixed name tableName columns rows hc hr' k hk,
    shownUI_view name tableName columns rows (k + 1), ?_, ?_, ?_, ?_, ?_, rfl, rfl⟩
  · rw [hn]; rfl
  · rw [hn]
    simp only [shownView, List.cons_append, ← List.map_append, take_batch]
  · rw [hl, hl']
    have : min (k * 80) rows.length ≤ min ((k + 1) * 80) rows.length := by
      simp only [Nat.min_def]; split_ifs <;> omega
    exact_mod_cast this
  · rw [hl]
    show ((min (k * 80) rows.length : Nat) : Int) ≤ (rows.length : Int)
    exact_mod_cast Nat.min_le_right _ _
  · rw [hl']
    show ((min ((k + 1) * 80) rows.length : Nat) : Int) ≤ (rows.length : Int)
    exact_mod_cast Nat.min_le_right _ _


theorem loads_only_append_witness :
    ∃ (t t' : TermUI) (v v' : View),
      afterFetches (fixedTable "generic" ["id"] ((List.range 150).map fun i : Nat => [Value.int64 i]))
        "users" 1 = .ok t ∧
      t.view ("generic" ++ "." ++ "users") = some v ∧
      Experimental.done t ("generic" ++ "." ++ "users") .Enter = .ok t' ∧
      t'.view ("generic" ++ "." ++ "users") = some v' ∧
      v.table.cells = headerCells ["id"] ::
        (((List.range 150).map fun i : Nat => [Value.int64 i]).take v.loaded.toNat).map
          (fun r => r.map formatCell) ∧
      v'.table.cells = v.table.cells ++
        ((((List.range 150).map fun i : Nat => [Value.int64 i]).drop v.loaded.toNat).take 80).map
          (fun r => r.map formatCell) ∧
      v.loaded ≤ v'.loaded ∧
      v.loaded ≤ v.rowCount ∧ v'.loaded ≤ v'.rowCount ∧
      v.rowCount = ((List.range 150).map fun i : Nat => [Value.int64 i]).length ∧
      v'.rowCount = ((List.range 150).map fun i : Nat => [Value.int64 i]).length :=
  loads_only_append "generic" "users" ["id"]
    ((List.range 150).map fun i : Nat => [Value.int64 i]) (by decide)
    (by
      intro r hm
      obtain ⟨i, -, rfl⟩ := List.mem_map.mp hm
      rfl)
    1 (by decide)

/-! ### The cell formatter of the content view -/

/-- C13, counterexample: the value that is itself absent is the nil value, the only one
without a type, and the formatter gives `NULL` for it, not `?nil?`. -/
theorem formatCell_absent_is_NULL :
    typeOf .null = none ∧
    (formatCell .null).Text = "NULL" ∧
    (formatCell .null).Text ≠ "?nil?" := by
  decide

/-- C13, amended: the type switch of `loadRows` stores, at the row and column of the
value, a cell whose text is the decimal string of a 64-bit integer, a text value
itself, `NULL` for the nil value, and `?` + the type name + `?` for a non-nil value of
an unrecognised type (so `?[16]uint8?` for a 16-byte array); every value without a
type is the nil value and gets `NULL`, so the branch that would give `?nil?` receives
no value. -/
theorem formatCell_texts :
    (∀ (table : Table) (row index : Nat) (column : Value),
      setValue table row index column = table.SetCell row index (formatCell column)) ∧
    (∀ i : Int, (formatCell (.int64 i)).Text = Itoa i) ∧
    (∀ s : String, (formatCell (.string s)).Text = s) ∧
    (formatCell .null).Text = "NULL" ∧
    (∀ typeName sprint : String,
      (formatCell (.other typeName sprint)).Text = "?" ++ typeName ++ "?") ∧
    (∀ b : Bytes16, (formatCell (.uuid b)).Text = "?[16]uint8?") ∧
    (∀ column : Value, typeOf column = none →
      column = .null ∧ (formatCell column).Text = "NULL") := by
  refine ⟨fun _ _ _ _ => rfl, fun _ => rfl, fun _ => rfl, rfl, fun _ _ => rfl, fun _ => rfl, ?_⟩
  intro column h
  cases column <;> simp [typeOf] at h
  exact ⟨rfl, rfl⟩


theorem formatCell_texts_witness :
    Value.null = Value.null ∧ (formatCell Value.null).Text = "NULL" :=
  formatCell_texts.2.2.2.2.2.2 Value.null rfl

/-! ### The count query -/

theorem lookup_setConn (connections : List (String × Conn)) (name : String) (c c' : Conn)
    (h : connections.lookup name = some c) :
    (connections.map fun e => if e.1 = name then (name, c') else e).lookup name = some c' := by
  induction connections with
  | nil => simp at h
  | cons e es ih =>
    obtain ⟨n, x⟩ := e
    simp only [List.map_cons]
    by_cases hn : n = name
    · rw [if_pos (show (n, x).1 = name from hn)]
      simp [List.lookup]
    · have hb : (name == n) = false := by simpa using fun h' => hn h'.symm
      simp only [List.lookup, hb] at h
      rw [if_neg (show ¬ (n, x).1 = name from hn)]
      simp only [List.lookup, hb]
      exact ih h

/-- C14, the code at the failing input: for schema `sales` and table `users`, `content`
sends the count query `select count(*) from users`, without the schema, while
`GetRows` selects from `sales.users`; for every schema the count query text is built
from the table name alone. -/
theorem content_counts_unqualified :
    (∃ t1 : TermUI,
      Termui.content (browsing oneRow) "generic" "sales" "users" = .ok t1 ∧
      t1.log "generic" = some [⟨"select count(*) from users", []⟩]) ∧
    (GetRows oneRow "sales" "users" 50 0).1.log =
      [⟨"SELECT * FROM sales.users LIMIT $1 OFFSET $2", [.int 50, .int 0]⟩] ∧
    (∀ (tui t1 : TermUI) (dbName schema table : String) (c : Conn),
      HasPage tui.pages (pageKey dbName schema table) = false →
      tui.conn dbName = some c →
      Termui.content tui dbName schema table = .ok t1 →
      t1.log dbName = some (c.log ++ [⟨"select count(*) from " ++ table, []⟩])) := by
  refine ⟨⟨_, rfl, by decide⟩, by decide, ?_⟩
  intro tui t1 dbName schema table c hp hc h
  simp only [pageKey] at hp
  have hc' : TermUI.conn { tui with finderFocus := tui.focus } dbName = some c := hc
  simp only [Termui.content, hp, Bool.false_eq_true, if_false, hc', Conn.QueryRowScanInt] at h
  cases hq : c.answerInt ⟨"select count(*) from " ++ table, []⟩ with
  | error e => simp [hq] at h
  | ok n =>
    simp only [hq] at h
    cases h
    simp only [TermUI.log, TermUI.conn, TermUI.AddPage, TermUI.setConn]
    rw [lookup_setConn _ _ c _ hc]
    rfl

end Pgterm
